import Mathlib

/-!
Verification of the UDP endpoint binding subsystem (`src/core/binding.c`)
of the msquic repository, via a shallow embedding in Lean 4.

Modelling conventions:
- byte values are `Nat` (with explicit `% 256` where C uses `uint8_t`
  arithmetic), byte buffers are `List Nat`;
- the hash/AEAD primitives, the datapath and the worker pool are outside
  the `src/` tree and appear as explicit function parameters or abstract
  flags, mirroring §1/§6 of the specification which treats them as external
  collaborators;
- fallible code returns `Option`; stateful code becomes explicit state
  passing (a state record plus a reachability relation).
-/

/-! ## Common data -/

/-- A socket address (QUIC_ADDR): family, IP, port.
`QuicAddrCompare` compares the whole address byte-for-byte, while
`QuicAddrCompareIp` compares only family and IP. -/
structure Addr where
  family : Nat
  ip : Nat
  port : Nat
deriving DecidableEq, Repr

/-- QUIC_STATELESS_RESET_TOKEN_LENGTH (16 bytes, §4.E of the spec). -/
def QUIC_STATELESS_RESET_TOKEN_LENGTH : Nat := 16

/-- Modelled from the spec: QUIC_IV_LENGTH, the AEAD nonce length (12 bytes);
the constant lives in the crypto headers, which are not under `src/`. -/
def QUIC_IV_LENGTH : Nat := 12

/-! ## Stateless reset packet length
(`QuicBindingQueueStatelessReset` lines 949-979 and the
STATELESS_RESET branch of `QuicBindingProcessStatelessOperation`
lines 767-782 of binding.c).

The constants QUIC_MIN_STATELESS_RESET_PACKET_LENGTH and
QUIC_RECOMMENDED_STATELESS_RESET_PACKET_LENGTH are defined outside `src/`;
following the spec (39-byte minimum) they are kept as parameters
`minLen`/`recommended` constrained by hypotheses. -/

/-- The packet-length computation of the STATELESS_RESET branch:
`PacketLength` is a `uint8_t`; a random byte is shifted right by 5
(keeping 3 bits of randomness), `recommended` is added, and the result is
clamped to `recvLen - 1` via `PacketLength = (uint8_t)BufferLength - 1`. -/
def quicStatelessResetPacketLength (recommended rand recvLen : Nat) : Nat :=
  let r := (rand % 256) >>> 5
  let pl := (r + recommended) % 256
  if pl ≥ recvLen then (recvLen % 256 + 255) % 256 else pl

/-- The length gate of `QuicBindingQueueStatelessReset` composed with the
length computation: datagrams with `BufferLength ≤ minLen` are dropped
("Packet too short for stateless reset"); otherwise the reset is emitted
with the computed length. -/
def quicBindingStatelessResetLength (minLen recommended rand recvLen : Nat) :
    Option Nat :=
  if recvLen ≤ minLen then none
  else some (quicStatelessResetPacketLength recommended rand recvLen)

/-- C4: for a received short-header datagram of length `recvLen`, the reset is
emitted only when `recvLen > minLen`; its length is
`max minLen (min (recvLen - 1) (recommended + r))` with `r ∈ [0,7]`,
hence always `≥ minLen` and `< recvLen`; and at `recvLen = minLen + 1` the
reset is exactly `minLen` bytes. -/
theorem statelessReset_length_spec (minLen recommended rand recvLen : Nat)
    (hmr : minLen ≤ recommended) (hrec : recommended + 7 ≤ 255) :
    (recvLen ≤ minLen →
      quicBindingStatelessResetLength minLen recommended rand recvLen = none)
  ∧ (minLen < recvLen →
      ∃ r, r ≤ 7 ∧
        quicBindingStatelessResetLength minLen recommended rand recvLen
          = some (max minLen (min (recvLen - 1) (recommended + r))))
  ∧ (∀ out, quicBindingStatelessResetLength minLen recommended rand recvLen
        = some out → minLen ≤ out ∧ out < recvLen)
  ∧ (recvLen = minLen + 1 →
      quicBindingStatelessResetLength minLen recommended rand recvLen
        = some minLen) := by
  have hr7 : (rand % 256) >>> 5 ≤ 7 := by
    have h1 : rand % 256 < 256 := Nat.mod_lt _ (by norm_num)
    have : (rand % 256) >>> 5 < 8 := by
      rw [Nat.shiftRight_eq_div_pow]
      omega
    omega
  set r := (rand % 256) >>> 5 with hrdef
  have hplv : (r + recommended) % 256 = r + recommended :=
    Nat.mod_eq_of_lt (by omega)
  constructor
  · intro h
    simp [quicBindingStatelessResetLength, if_pos h]
  constructor
  · intro hlt
    refine ⟨r, hr7, ?_⟩
    unfold quicBindingStatelessResetLength quicStatelessResetPacketLength
    rw [if_neg (by omega)]
    simp only [← hrdef, hplv]
    by_cases hclamp : r + recommended ≥ recvLen
    · rw [if_pos hclamp]
      have hrecv : recvLen ≤ 255 := by omega
      have h0 : recvLen % 256 = recvLen := Nat.mod_eq_of_lt (by omega)
      have h1 : (recvLen % 256 + 255) % 256 = recvLen - 1 := by
        rw [h0]
        have : recvLen + 255 = 256 + (recvLen - 1) := by omega
        rw [this, Nat.add_mod_left]
        exact Nat.mod_eq_of_lt (by omega)
      rw [h1]
      congr 1
      omega
    · rw [if_neg hclamp]
      congr 1
      omega
  constructor
  · intro out hout
    unfold quicBindingStatelessResetLength quicStatelessResetPacketLength at hout
    by_cases hle : recvLen ≤ minLen
    · simp [if_pos hle] at hout
    rw [if_neg hle] at hout
    simp only [← hrdef, hplv, Option.some.injEq] at hout
    by_cases hclamp : r + recommended ≥ recvLen
    · rw [if_pos hclamp] at hout
      have h0 : recvLen % 256 = recvLen := Nat.mod_eq_of_lt (by omega)
      have h1 : (recvLen % 256 + 255) % 256 = recvLen - 1 := by
        rw [h0]
        have : recvLen + 255 = 256 + (recvLen - 1) := by omega
        rw [this, Nat.add_mod_left]
        exact Nat.mod_eq_of_lt (by omega)
      rw [h1] at hout
      omega
    · rw [if_neg hclamp] at hout
      omega
  · intro heq
    unfold quicBindingStatelessResetLength quicStatelessResetPacketLength
    rw [if_neg (by omega)]
    simp only [← hrdef, hplv]
    by_cases hclamp : r + recommended ≥ recvLen
    · rw [if_pos hclamp]
      have h0 : recvLen % 256 = recvLen := Nat.mod_eq_of_lt (by omega)
      rw [h0]
      have : recvLen + 255 = 256 + (recvLen - 1) := by omega
      rw [this, Nat.add_mod_left]
      rw [Nat.mod_eq_of_lt (by omega)]
      congr 1
      omega
    · rw [if_neg hclamp]
      congr 1
      omega

/-- Witness for `statelessReset_length_spec` at minLen = 39,
recommended = 41, rand = 255, recvLen = 40 (the boundary case from the
spec: a reception of exactly MIN_RESET_LEN + 1 bytes). -/
theorem statelessReset_length_spec_witness :
    (39 ≤ 41 ∧ 41 + 7 ≤ 255)
  ∧ ((40 ≤ 39 → quicBindingStatelessResetLength 39 41 255 40 = none)
  ∧ (39 < 40 →
      ∃ r, r ≤ 7 ∧
        quicBindingStatelessResetLength 39 41 255 40
          = some (max 39 (min (40 - 1) (41 + r))))
  ∧ (∀ out, quicBindingStatelessResetLength 39 41 255 40 = some out →
        39 ≤ out ∧ out < 40)
  ∧ (40 = 39 + 1 → quicBindingStatelessResetLength 39 41 255 40 = some 39)) :=
  ⟨by decide, statelessReset_length_spec 39 41 255 40 (by decide) (by decide)⟩

/-! ## Retry AEAD nonce derivation
(RETRY branch of `QuicBindingProcessStatelessOperation`, binding.c
lines 846-855):

    uint8_t Iv[QUIC_IV_LENGTH];
    if (MsQuicLib.CidTotalLength >= sizeof(Iv)) {
        QuicCopyMemory(Iv, NewDestCid, sizeof(Iv));
        for (uint8_t i = sizeof(Iv); i < MsQuicLib.CidTotalLength; ++i)
            Iv[i % sizeof(Iv)] ^= NewDestCid[i];
    } else {
        QuicZeroMemory(Iv, sizeof(Iv));
        QuicCopyMemory(Iv, NewDestCid, MsQuicLib.CidTotalLength);
    }

`cid` is the freshly drawn NEW_DEST_CID, whose length is CidTotalLength. -/

/-- The nonce computation of the RETRY branch, translated from the source. -/
def quicRetryIv (cid : List Nat) : List Nat :=
  if cid.length ≥ QUIC_IV_LENGTH then
    (List.range' QUIC_IV_LENGTH (cid.length - QUIC_IV_LENGTH)).foldl
      (fun iv i =>
        iv.set (i % QUIC_IV_LENGTH)
          ((iv.getD (i % QUIC_IV_LENGTH) 0) ^^^ cid.getD i 0))
      (cid.take QUIC_IV_LENGTH)
  else
    cid ++ List.replicate (QUIC_IV_LENGTH - cid.length) 0

/-- The short-CID nonce as the claim words it: NEW_DEST_CID left-padded with
zeros (zero bytes in the leading positions, CID bytes at the end). -/
def claimRetryIvShort (cid : List Nat) : List Nat :=
  List.replicate (QUIC_IV_LENGTH - cid.length) 0 ++ cid

/-- XOR of the CID bytes selected by an index list (0 for out-of-range). -/
def xorAll (cid idxs : List Nat) : Nat :=
  idxs.foldl (fun a i => a ^^^ cid.getD i 0) 0

theorem foldl_xor_init (cid : List Nat) (idxs : List Nat) (x : Nat) :
    idxs.foldl (fun a i => a ^^^ cid.getD i 0) x = x ^^^ xorAll cid idxs := by
  induction idxs generalizing x with
  | nil => simp [xorAll]
  | cons i rest ih =>
    simp only [List.foldl_cons, xorAll] at *
    rw [ih (x ^^^ cid.getD i 0), ih (0 ^^^ cid.getD i 0)]
    rw [Nat.zero_xor, Nat.xor_assoc]

theorem xorFold_getD (cid : List Nat) (L : Nat) (idxs : List Nat)
    (iv : List Nat) (hiv : iv.length = L) (j : Nat) (hj : j < L) :
    (idxs.foldl
        (fun iv i => iv.set (i % L) ((iv.getD (i % L) 0) ^^^ cid.getD i 0))
        iv).getD j 0
      = iv.getD j 0 ^^^ xorAll cid (idxs.filter (fun i => i % L = j)) := by
  induction idxs generalizing iv with
  | nil => simp [xorAll]
  | cons i rest ih =>
    simp only [List.foldl_cons]
    have hlen : (iv.set (i % L) ((iv.getD (i % L) 0) ^^^ cid.getD i 0)).length
        = L := by simp [hiv]
    rw [ih _ hlen]
    by_cases hij : i % L = j
    · have hjlt : j < iv.length := by omega
      have hset : (iv.set (i % L)
          ((iv.getD (i % L) 0) ^^^ cid.getD i 0)).getD j 0
          = iv.getD j 0 ^^^ cid.getD i 0 := by
        subst hij
        rw [List.getD_eq_getElem?_getD, List.getElem?_set_self (by omega)]
        rw [List.getD_eq_getElem?_getD, List.getElem?_eq_getElem hjlt]
        simp
      rw [hset]
      have hfil : (i :: rest).filter (fun i => decide (i % L = j))
          = i :: rest.filter (fun i => decide (i % L = j)) := by
        simp [List.filter_cons, hij]
      rw [hfil]
      show _ = iv.getD j 0 ^^^
        ((i :: rest.filter fun i => decide (i % L = j)).foldl
          (fun a i => a ^^^ cid.getD i 0) 0)
      rw [List.foldl_cons, foldl_xor_init, Nat.zero_xor, Nat.xor_assoc]
    · have hset : (iv.set (i % L)
          ((iv.getD (i % L) 0) ^^^ cid.getD i 0)).getD j 0
          = iv.getD j 0 := by
        rw [List.getD_eq_getElem?_getD, List.getElem?_set_ne hij]
        rw [List.getD_eq_getElem?_getD]
      rw [hset]
      have hfil : (i :: rest).filter (fun i => decide (i % L = j))
          = rest.filter (fun i => decide (i % L = j)) := by
        simp [List.filter_cons, hij]
      rw [hfil]

theorem range_filter_mod_self (L j : Nat) (hj : j < L) :
    (List.range L).filter (fun i => i % L = j) = [j] := by
  have hcongr : (List.range L).filter (fun i => decide (i % L = j))
      = (List.range L).filter (fun i => decide (i = j)) := by
    apply List.filter_congr
    intro x hx
    have : x < L := List.mem_range.mp hx
    simp [Nat.mod_eq_of_lt this]
  rw [hcongr]
  have : ∀ n, (List.range n).filter (fun i => decide (i = j))
      = if j < n then [j] else [] := by
    intro n
    induction n with
    | zero => simp
    | succ m ih =>
      rw [List.range_succ, List.filter_append, ih]
      by_cases h : j < m
      · have hmj : ¬ m = j := by omega
        simp [h, List.filter_cons, hmj, Nat.lt_succ_of_lt h]
      · by_cases h2 : j = m
        · subst h2
          simp [h, List.filter_cons]
        · have h3 : ¬ j < m + 1 := by omega
          have hmj : ¬ m = j := by omega
          simp [h, h3, List.filter_cons, hmj]
  rw [this L, if_pos hj]

/-- C2 (amended): the nonce buffer has QUIC_IV_LENGTH bytes; when
`cid.length < QUIC_IV_LENGTH` it is NEW_DEST_CID right-padded with zeros
(CID bytes in the leading positions, zero bytes at the end); and in all
cases byte `j` of the nonce is the XOR of all CID bytes whose index is
congruent to `j` modulo QUIC_IV_LENGTH. -/
theorem quicRetryIv_spec (cid : List Nat) (j : Nat)
    (hj : j < QUIC_IV_LENGTH) :
    (quicRetryIv cid).length = QUIC_IV_LENGTH
  ∧ (cid.length < QUIC_IV_LENGTH →
      quicRetryIv cid = cid ++ List.replicate (QUIC_IV_LENGTH - cid.length) 0)
  ∧ (quicRetryIv cid).getD j 0
      = xorAll cid ((List.range cid.length).filter
          (fun i => i % QUIC_IV_LENGTH = j)) := by
  by_cases hge : cid.length ≥ QUIC_IV_LENGTH
  · have hdef : quicRetryIv cid
        = (List.range' QUIC_IV_LENGTH (cid.length - QUIC_IV_LENGTH)).foldl
            (fun iv i =>
              iv.set (i % QUIC_IV_LENGTH)
                ((iv.getD (i % QUIC_IV_LENGTH) 0) ^^^ cid.getD i 0))
            (cid.take QUIC_IV_LENGTH) := by
      unfold quicRetryIv
      rw [if_pos hge]
    have hlen0 : (cid.take QUIC_IV_LENGTH).length = QUIC_IV_LENGTH := by
      simp [Nat.min_eq_left hge]
    have hlen : (quicRetryIv cid).length = QUIC_IV_LENGTH := by
      rw [hdef]
      generalize (cid.take QUIC_IV_LENGTH) = iv0 at hlen0 ⊢
      generalize (List.range' QUIC_IV_LENGTH (cid.length - QUIC_IV_LENGTH))
          = idxs
      induction idxs generalizing iv0 with
      | nil => exact hlen0
      | cons i rest ih =>
        simp only [List.foldl_cons]
        exact ih _ (by simp [hlen0])
    refine ⟨hlen, by omega, ?_⟩
    rw [hdef, xorFold_getD cid QUIC_IV_LENGTH _ _ hlen0 j hj]
    have htake : (cid.take QUIC_IV_LENGTH).getD j 0 = cid.getD j 0 := by
      rw [List.getD_eq_getElem?_getD, List.getD_eq_getElem?_getD,
        List.getElem?_take_of_lt hj]
    rw [htake]
    have hsplit : List.range cid.length
        = List.range QUIC_IV_LENGTH
          ++ List.range' QUIC_IV_LENGTH (cid.length - QUIC_IV_LENGTH) := by
      have h1 : cid.length
          = QUIC_IV_LENGTH + (cid.length - QUIC_IV_LENGTH) := by omega
      rw [h1, List.range_add, List.range'_eq_map_range]
      have h2 : QUIC_IV_LENGTH + (cid.length - QUIC_IV_LENGTH)
          - QUIC_IV_LENGTH = cid.length - QUIC_IV_LENGTH := by omega
      rw [h2]
    rw [hsplit, List.filter_append]
    show _ = xorAll cid _
    unfold xorAll
    rw [List.foldl_append, foldl_xor_init, foldl_xor_init, foldl_xor_init,
      Nat.zero_xor]
    have hfirst : (List.range QUIC_IV_LENGTH).filter
        (fun i => decide (i % QUIC_IV_LENGTH = j)) = [j] :=
      range_filter_mod_self QUIC_IV_LENGTH j hj
    rw [hfirst]
    simp [xorAll]
  · push_neg at hge
    have hdef : quicRetryIv cid
        = cid ++ List.replicate (QUIC_IV_LENGTH - cid.length) 0 := by
      unfold quicRetryIv
      rw [if_neg (by omega)]
    refine ⟨by simp [hdef]; omega, fun _ => hdef, ?_⟩
    rw [hdef]
    have hcongr : (List.range cid.length).filter
        (fun i => decide (i % QUIC_IV_LENGTH = j))
        = (List.range cid.length).filter (fun i => decide (i = j)) := by
      apply List.filter_congr
      intro x hx
      have hxl : x < cid.length := List.mem_range.mp hx
      have : x < QUIC_IV_LENGTH := by omega
      simp [Nat.mod_eq_of_lt this]
    by_cases hjc : j < cid.length
    · have : (cid ++ List.replicate (QUIC_IV_LENGTH - cid.length) 0).getD j 0
          = cid.getD j 0 := by
        rw [List.getD_eq_getElem?_getD, List.getElem?_append_left hjc,
          List.getD_eq_getElem?_getD]
      rw [this]
      show _ = xorAll cid _
      rw [hcongr]
      have : ∀ n, (List.range n).filter (fun i => decide (i = j))
          = if j < n then [j] else [] := by
        intro n
        induction n with
        | zero => simp
        | succ m ih =>
          rw [List.range_succ, List.filter_append, ih]
          by_cases h : j < m
          · have hmj : ¬ m = j := by omega
            simp [h, List.filter_cons, hmj, Nat.lt_succ_of_lt h]
          · by_cases h2 : j = m
            · subst h2
              simp [h, List.filter_cons]
            · have h3 : ¬ j < m + 1 := by omega
              have hmj : ¬ m = j := by omega
              simp [h, h3, List.filter_cons, hmj]
      rw [this cid.length, if_pos hjc]
      simp [xorAll]
    · push_neg at hjc
      have hgd : (cid ++ List.replicate (QUIC_IV_LENGTH - cid.length) 0).getD
          j 0 = 0 := by
        rw [List.getD_eq_getElem?_getD, List.getElem?_append_right hjc]
        rcases Nat.lt_or_ge (j - cid.length) (QUIC_IV_LENGTH - cid.length)
          with h | h
        · rw [List.getElem?_eq_getElem (by simpa using h)]
          simp
        · rw [List.getElem?_eq_none (by simpa using h)]
          rfl
      rw [hgd]
      show (0:Nat) = xorAll cid _
      rw [hcongr]
      have hnil : (List.range cid.length).filter (fun i => decide (i = j))
          = [] := by
        rw [List.filter_eq_nil_iff]
        intro x hx
        have : x < cid.length := List.mem_range.mp hx
        simp
        omega
      rw [hnil]
      simp [xorAll]

/-- Counterexample to C2 as stated: for a 1-byte NEW_DEST_CID (shorter than
QUIC_IV_LENGTH) the code places the CID bytes at the start of the nonce and
the zero padding at the end, not "zero bytes in the leading positions, CID
bytes at the end". -/
theorem quicRetryIv_claim_counterexample :
    [171].length < QUIC_IV_LENGTH
  ∧ quicRetryIv [171] = [171, 0, 0, 0, 0, 0, 0, 0, 0, 0, 0, 0]
  ∧ claimRetryIvShort [171] = [0, 0, 0, 0, 0, 0, 0, 0, 0, 0, 0, 171]
  ∧ quicRetryIv [171] ≠ claimRetryIvShort [171] := by
  refine ⟨by decide, by decide, by decide, by decide⟩

/-- Witness for `quicRetryIv_spec` at a concrete 14-byte CID and j = 1. -/
theorem quicRetryIv_spec_witness :
    (1 < QUIC_IV_LENGTH)
  ∧ ((quicRetryIv [1,2,3,4,5,6,7,8,9,10,11,12,13,14]).length = QUIC_IV_LENGTH
  ∧ ([1,2,3,4,5,6,7,8,9,10,11,12,13,14].length < QUIC_IV_LENGTH →
      quicRetryIv [1,2,3,4,5,6,7,8,9,10,11,12,13,14]
        = [1,2,3,4,5,6,7,8,9,10,11,12,13,14] ++ List.replicate
            (QUIC_IV_LENGTH - [1,2,3,4,5,6,7,8,9,10,11,12,13,14].length) 0)
  ∧ (quicRetryIv [1,2,3,4,5,6,7,8,9,10,11,12,13,14]).getD 1 0
      = xorAll [1,2,3,4,5,6,7,8,9,10,11,12,13,14]
          ((List.range [1,2,3,4,5,6,7,8,9,10,11,12,13,14].length).filter
            (fun i => i % QUIC_IV_LENGTH = 1))) :=
  ⟨by decide, quicRetryIv_spec [1,2,3,4,5,6,7,8,9,10,11,12,13,14] 1 (by decide)⟩

/-! ## Stateless reset token derivation
(`QuicBindingGenerateStatelessResetToken` lines 1682-1709 and
`QuicBindingInitialize` lines 85-91 of binding.c).

`QuicHashCreate(QUIC_HASH_SHA256, HashSalt, 20, ...)` builds a keyed-hash
object capturing the salt; `QuicHashCompute` applies it. The platform hash
implementation (HMAC-SHA-256) is outside `src/`, so the HMAC function is an
explicit parameter `hmacSha256`; the hash object is the partial application
that captures the salt, mirroring the one-time creation at
`QuicBindingInitialize` (the binding never rotates it). -/

/-- `QuicHashCreate`: build the keyed hash object from the salt. -/
def quicHashCreate (hmacSha256 : List Nat → List Nat → List Nat)
    (salt : List Nat) : List Nat → List Nat :=
  fun data => hmacSha256 salt data

/-- The reset-token state a binding carries: the hash object created once
from the 20-byte random `HashSalt` during `QuicBindingInitialize`. No other
function of binding.c ever replaces it. -/
structure ResetTokenState where
  resetTokenHash : List Nat → List Nat

/-- The fragment of `QuicBindingInitialize` that creates the reset-token
hash from the freshly drawn salt. -/
def quicBindingCreateResetHash (hmacSha256 : List Nat → List Nat → List Nat)
    (hashSalt : List Nat) : ResetTokenState :=
  ⟨quicHashCreate hmacSha256 hashSalt⟩

/-- `QuicBindingGenerateStatelessResetToken`: hash the received packet's
destination CID with the binding's hash object and keep the first
QUIC_STATELESS_RESET_TOKEN_LENGTH bytes. -/
def quicBindingGenerateStatelessResetToken (b : ResetTokenState)
    (cid : List Nat) : List Nat :=
  (b.resetTokenHash cid).take QUIC_STATELESS_RESET_TOKEN_LENGTH

/-- C5: for a binding whose hash was created from `hashSalt` at
initialization, the reset token for a destination CID is exactly the first
16 bytes of HMAC-SHA-256 keyed with that salt over the CID bytes. Since
the token is a pure function of the salt (fixed at creation) and the CID,
it is deterministic: any two bindings created from the same salt produce
the same token for the same CID. -/
theorem generateStatelessResetToken_spec
    (hmacSha256 : List Nat → List Nat → List Nat)
    (hashSalt cid : List Nat) :
    quicBindingGenerateStatelessResetToken
        (quicBindingCreateResetHash hmacSha256 hashSalt) cid
      = (hmacSha256 hashSalt cid).take QUIC_STATELESS_RESET_TOKEN_LENGTH
  ∧ ∀ hashSalt₂ : List Nat, hashSalt₂ = hashSalt →
      quicBindingGenerateStatelessResetToken
          (quicBindingCreateResetHash hmacSha256 hashSalt₂) cid
        = quicBindingGenerateStatelessResetToken
            (quicBindingCreateResetHash hmacSha256 hashSalt) cid := by
  refine ⟨rfl, ?_⟩
  intro s2 h
  rw [h]

/-- Witness for `generateStatelessResetToken_spec` at a concrete hash
function, salt and CID. -/
theorem generateStatelessResetToken_spec_witness :
    quicBindingGenerateStatelessResetToken
        (quicBindingCreateResetHash (fun k d => k ++ d) [7, 7]) [1, 2, 3]
      = ((fun (k d : List Nat) => k ++ d) [7, 7] [1, 2, 3]).take
          QUIC_STATELESS_RESET_TOKEN_LENGTH
  ∧ ∀ hashSalt₂ : List Nat, hashSalt₂ = [7, 7] →
      quicBindingGenerateStatelessResetToken
          (quicBindingCreateResetHash (fun k d => k ++ d) hashSalt₂) [1, 2, 3]
        = quicBindingGenerateStatelessResetToken
            (quicBindingCreateResetHash (fun k d => k ++ d) [7, 7])
            [1, 2, 3] :=
  generateStatelessResetToken_spec (fun k d => k ++ d) [7, 7] [1, 2, 3]

/-! ## Connection creation failure path
(`QuicBindingCreateConnection`, binding.c lines 1107-1223).

After `QuicLibraryTryAddRefBinding` succeeds (`BindingRefAdded = TRUE`),
`QuicLookupAddRemoteHash` either inserts the new connection, reports a
collision (returning the pre-existing connection through the out-parameter
`Connection`), or fails with `Connection == NULL`. The Exit path then runs

    if (InterlockedCompareExchange16(
            (short*)&Connection->BackUpOperUsed, 1, 0) == 0) {
        QUIC_OPERATION* Oper = &Connection->BackUpOper;
        ...
        QuicConnQueueOper(NewConnection, Oper);
    }

i.e. the compare-and-swap and the backup operation slot belong to
`Connection` (the pre-existing connection, or NULL on insertion failure),
while the operation is queued on `NewConnection`. -/

/-- Result of `QuicLookupAddRemoteHash` (lookup code is outside binding.c;
the three outcomes documented at the call site lines 1173-1187). -/
inductive AddRemoteHashResult where
  | inserted
  | collision (existing : Nat)
  | failure
deriving DecidableEq, Repr

/-- Outcome of `QuicBindingCreateConnection`. `slotOwner` in
`collisionShutdown` names the connection whose `BackUpOper` slot the CAS
claims; `queuedOn` names the connection the shutdown operation is queued
on; `returned` is the function's return value. -/
inductive CreateConnectionOutcome where
  | noConnection
  | success (newConn : Nat)
  | collisionShutdown (returned slotOwner queuedOn : Nat) (casWon : Bool)
  | nullDereference
deriving DecidableEq, Repr

/-- `QuicBindingCreateConnection`, with the external collaborators
(`QuicConnInitialize`, worker overload, `QuicLibraryTryAddRefBinding`,
`QuicLookupAddRemoteHash`) as abstract inputs. `backUpOperUsed` gives the
current `BackUpOperUsed` flag of each existing connection (indexed by id)
for the CAS. -/
def quicBindingCreateConnection (initOk overloaded refOk : Bool)
    (hashResult : AddRemoteHashResult) (newConnId : Nat)
    (backUpOperUsed : Nat → Bool) : CreateConnectionOutcome :=
  if ¬initOk then .noConnection
  else if overloaded then .noConnection
  else if ¬refOk then .noConnection
  else
    match hashResult with
    | .inserted => .success newConnId
    | .collision existing =>
        .collisionShutdown existing existing newConnId
          (¬backUpOperUsed existing)
    | .failure => .nullDereference

/-- C1 (code bug): after the binding reference is acquired,
(a) a remote-hash insertion failure (`Connection == NULL`, the path that
logs "Failed to insert remote hash") reaches
`InterlockedCompareExchange16(&Connection->BackUpOperUsed, ...)` with
`Connection == NULL` — a NULL dereference instead of the claimed silent
shutdown through the new connection's own slot; and
(b) on a collision the CAS and the backup operation slot used are those of
the pre-existing connection (`slotOwner = existing = 3`), not of the newly
created connection (`queuedOn = 7`) as the claim states. -/
theorem createConnection_backup_slot_bug :
    quicBindingCreateConnection true false true .failure 7 (fun _ => false)
      = .nullDereference
  ∧ quicBindingCreateConnection true false true (.collision 3) 7
      (fun _ => false)
      = .collisionShutdown 3 3 7 true
  ∧ ∀ slotOwner queuedOn returned casWon,
      quicBindingCreateConnection true false true (.collision 3) 7
          (fun _ => false)
        = .collisionShutdown returned slotOwner queuedOn casWon →
      slotOwner ≠ queuedOn := by
  refine ⟨rfl, rfl, ?_⟩
  intro slotOwner queuedOn returned casWon h
  simp [quicBindingCreateConnection] at h
  omega

/-! ## Retry decision and token validation
(`QuicBindingValidateRetryToken` lines 1030-1064 and
`QuicBindingShouldRetryConnection` lines 1070-1105 of binding.c).

`QuicRetryTokenDecrypt` lives in the packet code outside `src/` and is an
abstract parameter `decrypt`; `sizeof(QUIC_RETRY_TOKEN_CONTENTS)` and
`sizeof(Token.Encrypted.OrigConnId)` are compile-time constants outside
`src/` and are the parameters `tokenSize` and `maxOrigCid`. -/

/-- The decrypted contents of a Retry token (QUIC_RETRY_TOKEN_CONTENTS). -/
structure RetryTokenContents where
  timestamp : Nat
  remoteAddress : Addr
  origConnId : List Nat
  origConnIdLength : Nat
deriving DecidableEq, Repr

/-- `QuicBindingValidateRetryToken`: length check, AEAD decryption,
OrigConnIdLength bound check, remote address comparison — in source
order. -/
def quicBindingValidateRetryToken (tokenSize maxOrigCid : Nat)
    (decrypt : List Nat → Option RetryTokenContents)
    (remoteAddr : Addr) (tokenLength : Nat) (tokenBuffer : List Nat) :
    Bool :=
  if tokenLength ≠ tokenSize then false
  else
    match decrypt tokenBuffer with
    | none => false
    | some tok =>
      if tok.origConnIdLength > maxOrigCid then false
      else decide (tok.remoteAddress = remoteAddr)

/-- The three outputs of `QuicBindingShouldRetryConnection`: its return
value and the two packet flags it may set (both initially false on the
zeroed packet metadata). -/
structure ShouldRetryResult where
  retry : Bool
  validToken : Bool
  dropPacket : Bool
deriving DecidableEq, Repr

/-- `QuicBindingShouldRetryConnection`: with a token, validate it and
never retry; with no token, retry iff the current handshake memory usage
is at least `(RetryMemoryLimit * QuicTotalMemory) / UINT16_MAX` (the
product computed in uint64). -/
def quicBindingShouldRetryConnection (tokenSize maxOrigCid : Nat)
    (decrypt : List Nat → Option RetryTokenContents) (remoteAddr : Addr)
    (retryMemoryLimit totalMemory handshakeMemoryUsage : Nat)
    (tokenLength : Nat) (token : List Nat) : ShouldRetryResult :=
  if tokenLength ≠ 0 then
    if quicBindingValidateRetryToken tokenSize maxOrigCid decrypt remoteAddr
        tokenLength token then
      ⟨false, true, false⟩
    else
      ⟨false, false, true⟩
  else
    let currentMemoryLimit :=
      ((retryMemoryLimit * totalMemory) % (2 ^ 64)) / 65535
    ⟨decide (handshakeMemoryUsage ≥ currentMemoryLimit), false, false⟩

theorem validateRetryToken_true_iff (tokenSize maxOrigCid : Nat)
    (decrypt : List Nat → Option RetryTokenContents) (remoteAddr : Addr)
    (tokenLength : Nat) (token : List Nat) :
    quicBindingValidateRetryToken tokenSize maxOrigCid decrypt remoteAddr
        tokenLength token = true
      ↔ tokenLength = tokenSize ∧ ∃ tok, decrypt token = some tok ∧
          tok.origConnIdLength ≤ maxOrigCid ∧
          tok.remoteAddress = remoteAddr := by
  unfold quicBindingValidateRetryToken
  by_cases hsz : tokenLength ≠ tokenSize
  · rw [if_pos hsz]
    simp [hsz]
  · push_neg at hsz
    rw [if_neg (by simpa using hsz)]
    cases hdec : decrypt token with
    | none => simp [hsz]
    | some tok =>
      by_cases hlenc : tok.origConnIdLength > maxOrigCid
      · simp [hsz, hlenc]
      · simp [hsz, hlenc]
        omega

/-- Counterexample to C6 as stated: a token of the correct length that
AEAD-decrypts and whose embedded remote address matches the datagram's is
nevertheless rejected (ValidToken stays false, DropPacket is set) because
the decrypted OrigConnIdLength exceeds the OrigConnId capacity — a fourth
validation condition the claim omits. -/
theorem shouldRetryConnection_claim_counterexample :
    quicBindingShouldRetryConnection 76 20
        (fun _ => some ⟨0, ⟨2, 5, 443⟩, [], 21⟩) ⟨2, 5, 443⟩
        0 0 0 76 (List.replicate 76 0)
      = ⟨false, false, true⟩
  ∧ (76 : Nat) = 76
  ∧ (fun (_ : List Nat) => some (⟨0, ⟨2, 5, 443⟩, [], 21⟩ :
        RetryTokenContents)) (List.replicate 76 0)
      = some ⟨0, ⟨2, 5, 443⟩, [], 21⟩
  ∧ (⟨0, ⟨2, 5, 443⟩, [], 21⟩ : RetryTokenContents).remoteAddress
      = ⟨2, 5, 443⟩ := by
  refine ⟨by decide, rfl, rfl, rfl⟩

/-- C6 (amended): `QuicBindingShouldRetryConnection` returns true iff the
packet carries no token and `CurrentHandshakeMemoryUsage` is at least
`(RetryMemoryLimit * QuicTotalMemory) / UINT16_MAX`; with a token it
always returns false, sets ValidToken exactly when the token length equals
`sizeof(QUIC_RETRY_TOKEN_CONTENTS)`, the token AEAD-decrypts, the
decrypted OrigConnIdLength fits the OrigConnId buffer, and the embedded
remote address equals the datagram's remote address — and sets DropPacket
otherwise. -/
theorem shouldRetryConnection_spec (tokenSize maxOrigCid : Nat)
    (decrypt : List Nat → Option RetryTokenContents) (remoteAddr : Addr)
    (retryMemoryLimit totalMemory handshakeMemoryUsage : Nat)
    (tokenLength : Nat) (token : List Nat)
    (hNoOverflow : retryMemoryLimit * totalMemory < 2 ^ 64) :
    ((quicBindingShouldRetryConnection tokenSize maxOrigCid decrypt
        remoteAddr retryMemoryLimit totalMemory handshakeMemoryUsage
        tokenLength token).retry = true
      ↔ tokenLength = 0 ∧
        handshakeMemoryUsage ≥ retryMemoryLimit * totalMemory / 65535)
  ∧ ((quicBindingShouldRetryConnection tokenSize maxOrigCid decrypt
        remoteAddr retryMemoryLimit totalMemory handshakeMemoryUsage
        tokenLength token).validToken = true
      ↔ tokenLength ≠ 0 ∧ tokenLength = tokenSize ∧
        ∃ tok, decrypt token = some tok ∧
          tok.origConnIdLength ≤ maxOrigCid ∧
          tok.remoteAddress = remoteAddr)
  ∧ ((quicBindingShouldRetryConnection tokenSize maxOrigCid decrypt
        remoteAddr retryMemoryLimit totalMemory handshakeMemoryUsage
        tokenLength token).dropPacket = true
      ↔ tokenLength ≠ 0 ∧
        quicBindingValidateRetryToken tokenSize maxOrigCid decrypt
          remoteAddr tokenLength token = false) := by
  have hmod : (retryMemoryLimit * totalMemory) % (2 ^ 64)
      = retryMemoryLimit * totalMemory := Nat.mod_eq_of_lt hNoOverflow
  have hiff := validateRetryToken_true_iff tokenSize maxOrigCid decrypt
    remoteAddr tokenLength token
  unfold quicBindingShouldRetryConnection
  by_cases htl : tokenLength ≠ 0
  · rw [if_pos htl]
    by_cases hval : quicBindingValidateRetryToken tokenSize maxOrigCid
        decrypt remoteAddr tokenLength token = true
    · rw [if_pos hval]
      refine ⟨by simp [htl], ?_, by simp [hval]⟩
      simp only [true_iff]
      exact ⟨htl, hiff.mp hval⟩
    · rw [if_neg hval]
      rw [Bool.not_eq_true] at hval
      refine ⟨by simp [htl], ?_, by simp [htl, hval]⟩
      constructor
      · intro h
        simp at h
      · rintro ⟨-, hrest⟩
        rw [hiff.mpr hrest] at hval
        simp at hval
  · push_neg at htl
    rw [if_neg (by simpa using htl)]
    subst htl
    simp only [hmod]
    refine ⟨by simp, by simp, by simp⟩

/-- Witness for `shouldRetryConnection_spec`: no token, usage above the
limit, at concrete values. -/
theorem shouldRetryConnection_spec_witness :
    ((3 : Nat) * 65535 < 2 ^ 64)
  ∧ (((quicBindingShouldRetryConnection 76 20 (fun _ => none) ⟨2, 5, 443⟩
        3 65535 5 0 []).retry = true
      ↔ (0 : Nat) = 0 ∧ (5 : Nat) ≥ 3 * 65535 / 65535)
  ∧ (((quicBindingShouldRetryConnection 76 20 (fun _ => none) ⟨2, 5, 443⟩
        3 65535 5 0 []).validToken = true)
      ↔ (0 : Nat) ≠ 0 ∧ (0 : Nat) = 76 ∧
        ∃ tok, (fun (_ : List Nat) =>
            (none : Option RetryTokenContents)) [] = some tok ∧
          tok.origConnIdLength ≤ 20 ∧ tok.remoteAddress = ⟨2, 5, 443⟩)
  ∧ (((quicBindingShouldRetryConnection 76 20 (fun _ => none) ⟨2, 5, 443⟩
        3 65535 5 0 []).dropPacket = true)
      ↔ (0 : Nat) ≠ 0 ∧
        quicBindingValidateRetryToken 76 20 (fun _ => none) ⟨2, 5, 443⟩
          0 [] = false)) :=
  ⟨by decide,
   shouldRetryConnection_spec 76 20 (fun _ => none) ⟨2, 5, 443⟩
     3 65535 5 0 [] (by decide)⟩

/-! ## Stateless reset and exclusive bindings
(`QuicBindingQueueStatelessReset` lines 949-979 and
`QuicBindingDeliverDatagrams` lines 1230-1379 of binding.c).

`QuicBindingDeliverDatagrams` drops unmatched datagrams on an exclusive
binding ("No connection on exclusive binding") before the short-header
stateless-reset branch, so the runtime `Binding->Exclusive` drop inside
`QuicBindingQueueStatelessReset` can never fire when the function is
reached from the receive path. The external collaborators (the lookup
tables, `QuicPacketValidateLongHeaderV1`, `QuicBindingShouldRetryConnection`
outcome, worker queuing) are abstract inputs. -/

/-- The possible results of `QuicBindingQueueStatelessReset`. -/
inductive ResetQueueResult where
  | dropTooShort
  | dropExclusive
  | notQueued
  | queued
deriving DecidableEq, Repr

/-- `QuicBindingQueueStatelessReset`: the length check comes first, then
the runtime `Binding->Exclusive` check, then
`QuicBindingQueueStatelessOperation` (whose success is the abstract flag
`queueOk`). -/
def quicBindingQueueStatelessReset (exclusive : Bool) (minLen : Nat)
    (bufferLength : Nat) (queueOk : Bool) : ResetQueueResult :=
  if bufferLength ≤ minLen then .dropTooShort
  else if exclusive then .dropExclusive
  else if queueOk then .queued
  else .notQueued

/-- The inputs of one `QuicBindingDeliverDatagrams` call: binding flags,
head-packet properties, and the abstract outcomes of the external calls. -/
structure DeliverCtx where
  exclusive : Bool
  serverOwned : Bool
  isShortHeader : Bool
  bufferLength : Nat
  isVersionNeg : Bool
  isHandledV1Version : Bool
  isInitial : Bool
  longHeaderValid : Bool
  hasListener : Bool
  shouldRetry : Bool
  dropPacket : Bool
  retryQueueOk : Bool
  resetQueueOk : Bool
  lookup : Option Nat
  createResult : Option Nat
deriving DecidableEq, Repr

/-- Outcome of `QuicBindingDeliverDatagrams`; a stateless-reset attempt
carries the inner `ResetQueueResult`. -/
inductive DeliverOutcome where
  | deliveredTo (conn : Nat)
  | dropNoConnExclusive
  | statelessReset (r : ResetQueueResult)
  | dropVerNeg
  | dropNonInitial
  | dropInvalidHeader
  | dropNoListener
  | retryQueued (ok : Bool)
  | dropped
deriving DecidableEq, Repr

/-- `QuicBindingDeliverDatagrams`, branch for branch from the source:
lookup hit delivers; on a miss an exclusive binding drops; an unmatched
short header attempts a stateless reset; a version-negotiation packet is
dropped; for the handled v1 versions only Initial packets proceed; then
long-header validation, the listener check, the retry decision and
connection creation. -/
def quicBindingDeliverDatagrams (minLen : Nat) (x : DeliverCtx) :
    DeliverOutcome :=
  match x.lookup with
  | some c => .deliveredTo c
  | none =>
    if x.exclusive then .dropNoConnExclusive
    else if x.isShortHeader then
      .statelessReset
        (quicBindingQueueStatelessReset x.exclusive minLen x.bufferLength
          x.resetQueueOk)
    else if x.isVersionNeg then .dropVerNeg
    else if x.isHandledV1Version ∧ ¬x.isInitial then .dropNonInitial
    else if ¬x.longHeaderValid then .dropInvalidHeader
    else if ¬x.hasListener then .dropNoListener
    else if x.shouldRetry then .retryQueued x.retryQueueOk
    else if x.dropPacket then .dropped
    else
      match x.createResult with
      | some c => .deliveredTo c
      | none => .dropped

/-- C10: whenever a `QuicBindingDeliverDatagrams` call reaches
`QuicBindingQueueStatelessReset`, the binding is not exclusive and the
runtime Exclusive drop branch is not taken; moreover, called with an
exclusive binding directly, `QuicBindingQueueStatelessReset` never queues
a reset. -/
theorem statelessReset_never_on_exclusive (minLen : Nat) (x : DeliverCtx)
    (r : ResetQueueResult)
    (h : quicBindingDeliverDatagrams minLen x = .statelessReset r) :
    x.exclusive = false
  ∧ r ≠ .dropExclusive
  ∧ ∀ (bufferLength : Nat) (queueOk : Bool),
      quicBindingQueueStatelessReset true minLen bufferLength queueOk
        ≠ .queued := by
  have hexcl : x.exclusive = false ∧ r
      = quicBindingQueueStatelessReset x.exclusive minLen x.bufferLength
          x.resetQueueOk := by
    unfold quicBindingDeliverDatagrams at h
    cases hl : x.lookup with
    | some c =>
      rw [hl] at h
      simp at h
    | none =>
      rw [hl] at h
      by_cases he : x.exclusive
      · rw [if_pos he] at h
        simp at h
      · rw [if_neg he] at h
        refine ⟨by simpa using he, ?_⟩
        by_cases hsh : x.isShortHeader
        · rw [if_pos hsh] at h
          exact (DeliverOutcome.statelessReset.injEq _ _ ▸ h).symm
        · rw [if_neg hsh] at h
          by_cases hvn : x.isVersionNeg
          · rw [if_pos hvn] at h
            simp at h
          · rw [if_neg hvn] at h
            by_cases hni : x.isHandledV1Version ∧ ¬x.isInitial
            · rw [if_pos hni] at h
              simp at h
            · rw [if_neg hni] at h
              by_cases hlv : ¬x.longHeaderValid
              · rw [if_pos hlv] at h
                simp at h
              · rw [if_neg hlv] at h
                by_cases hnl : ¬x.hasListener
                · rw [if_pos hnl] at h
                  simp at h
                · rw [if_neg hnl] at h
                  by_cases hsr : x.shouldRetry
                  · rw [if_pos hsr] at h
                    simp at h
                  · rw [if_neg (by simpa using hsr)] at h
                    by_cases hdp : x.dropPacket
                    · rw [if_pos hdp] at h
                      simp at h
                    · rw [if_neg (by simpa using hdp)] at h
                      cases hc : x.createResult with
                      | some c =>
                        rw [hc] at h
                        simp at h
                      | none =>
                        rw [hc] at h
                        simp at h
  obtain ⟨he, hr⟩ := hexcl
  refine ⟨he, ?_, ?_⟩
  · rw [hr, he]
    unfold quicBindingQueueStatelessReset
    by_cases hbl : x.bufferLength ≤ minLen
    · rw [if_pos hbl]
      simp
    · rw [if_neg hbl]
      simp only [Bool.false_eq_true, if_false]
      by_cases hq : x.resetQueueOk
      · rw [if_pos hq]
        simp
      · rw [if_neg hq]
        simp
  · intro bufferLength queueOk
    unfold quicBindingQueueStatelessReset
    by_cases hbl : bufferLength ≤ minLen
    · rw [if_pos hbl]
      simp
    · rw [if_neg hbl]
      simp

/-- Witness for `statelessReset_never_on_exclusive`: a shared binding, an
unmatched 50-byte short-header datagram, queueing succeeds. -/
theorem statelessReset_never_on_exclusive_witness :
    (quicBindingDeliverDatagrams 39
        ⟨false, true, true, 50, false, false, false, false, false, false,
          false, false, true, none, none⟩
      = .statelessReset .queued)
  ∧ ((⟨false, true, true, 50, false, false, false, false, false, false,
          false, false, true, none, none⟩ : DeliverCtx).exclusive = false
  ∧ ResetQueueResult.queued ≠ .dropExclusive
  ∧ ∀ (bufferLength : Nat) (queueOk : Bool),
      quicBindingQueueStatelessReset true 39 bufferLength queueOk
        ≠ .queued) :=
  ⟨by decide,
   statelessReset_never_on_exclusive 39
     ⟨false, true, true, 50, false, false, false, false, false, false,
       false, false, true, none, none⟩ .queued (by decide)⟩

/-! ## Stateless operation cache
(`QuicBindingCreateStatelessOperation` lines 493-611,
`QuicBindingReleaseStatelessOperation` lines 917-947 of binding.c).

The cache is the pair (StatelessOperTable, StatelessOperList) plus
StatelessOperCount; the hash table and the age list always hold the same
entries, so the model keeps one list in age order (head oldest). The
duplicate check walks the hash bucket of `QuicAddrHash(RemoteAddress)`;
since byte-identical addresses always hash to the same bucket and
`QuicAddrCompare` is exact equality, scanning the whole list is
observationally the same check.

Time: `QuicTimeMs32` is a 32-bit millisecond clock; `QuicTimeDiff32` is
its wrap-around difference. The model keeps the sampled clock in the state
and lets it advance monotonically within one 2^32 ms epoch (the `tick`
step requires the new sample to stay below 2^32), matching successive
`QuicTimeMs32` samples without wrap. -/

/-- Wrap-around 32-bit time difference `QuicTimeDiff32(s, e)`. -/
def timeDiff32 (s e : Nat) : Nat :=
  (4294967296 + e % 4294967296 - s % 4294967296) % 4294967296

/-- One tracked stateless operation (QUIC_STATELESS_CONTEXT), restricted
to the fields the cache logic reads. `opId` identifies the context across
calls (standing in for its address). `isExpired` is omitted: an entry is
in the model list exactly while it is in the table and age list, i.e.
while `IsExpired` is false. -/
structure StatelessCtx where
  opId : Nat
  remoteAddress : Addr
  creationTimeMs : Nat
  isProcessed : Bool
deriving DecidableEq, Repr

/-- The per-binding stateless-op cache state. `now` is the last
`QuicTimeMs32` sample. -/
structure BindingStateless where
  statelessOperList : List StatelessCtx
  statelessOperCount : Nat
  nextId : Nat
  now : Nat
deriving DecidableEq, Repr

/-- The age sweep at the top of `QuicBindingCreateStatelessOperation`:
remove entries from the head of the age list while their age is at least
`expiry`, stopping at the first young entry. -/
def sweepExpiredList (expiry now : Nat) : List StatelessCtx → List StatelessCtx
  | [] => []
  | c :: rest =>
    if timeDiff32 c.creationTimeMs now < expiry then c :: rest
    else sweepExpiredList expiry now rest

/-- The sweep phase of `QuicBindingCreateStatelessOperation` as a state
update: the removed entries also decrement `StatelessOperCount`. -/
def sweepStatelessState (expiry : Nat) (s : BindingStateless) :
    BindingStateless :=
  { s with
      statelessOperList := sweepExpiredList expiry s.now s.statelessOperList,
      statelessOperCount := s.statelessOperCount
        - (s.statelessOperList.length
            - (sweepExpiredList expiry s.now s.statelessOperList).length) }

/-- `QuicBindingCreateStatelessOperation`: age sweep, capacity check
against `maxOps` (QUIC_MAX_BINDING_STATELESS_OPERATIONS), duplicate
remote-address check, then pool allocation (`allocOk`) and insertion at
the tail of the age list. Returns the updated state and the id of the
created context, if any. -/
def quicBindingCreateStatelessOperation (expiry maxOps : Nat)
    (allocOk : Bool) (addr : Addr) (s : BindingStateless) :
    BindingStateless × Option Nat :=
  if (sweepStatelessState expiry s).statelessOperCount ≥ maxOps then
    (sweepStatelessState expiry s, none)
  else if (sweepStatelessState expiry s).statelessOperList.any
      (fun c => decide (c.remoteAddress = addr)) then
    (sweepStatelessState expiry s, none)
  else if ¬allocOk then
    (sweepStatelessState expiry s, none)
  else
    ({ sweepStatelessState expiry s with
        statelessOperList := (sweepStatelessState expiry s).statelessOperList
          ++ [⟨s.nextId, addr, s.now, false⟩],
        statelessOperCount :=
          (sweepStatelessState expiry s).statelessOperCount + 1,
        nextId := s.nextId + 1 }, some s.nextId)

/-- `QuicBindingReleaseStatelessOperation` restricted to the cache: set
`IsProcessed` on the context. (If the context was already swept out of
the cache the flag lives outside the cache and the context is freed;
membership of the cache is unchanged either way.) -/
def quicBindingReleaseStatelessOperation (opId : Nat)
    (s : BindingStateless) : BindingStateless :=
  { s with
      statelessOperList := s.statelessOperList.map
        (fun c => if c.opId = opId then { c with isProcessed := true }
                  else c) }

/-- The empty cache created by `QuicBindingInitialize`. -/
def initialBindingStateless : BindingStateless := ⟨[], 0, 0, 0⟩

/-- Reachable cache states: the initial state, clock advance (monotone,
within one 32-bit epoch), create calls and release calls. -/
inductive StatelessReach (expiry maxOps : Nat) : BindingStateless → Prop
  | init : StatelessReach expiry maxOps initialBindingStateless
  | tick (s : BindingStateless) (t : Nat) :
      StatelessReach expiry maxOps s → s.now ≤ t → t < 4294967296 →
      StatelessReach expiry maxOps { s with now := t }
  | create (s : BindingStateless) (allocOk : Bool) (addr : Addr) :
      StatelessReach expiry maxOps s →
      StatelessReach expiry maxOps
        (quicBindingCreateStatelessOperation expiry maxOps allocOk addr s).1
  | release (s : BindingStateless) (opId : Nat) :
      StatelessReach expiry maxOps s →
      StatelessReach expiry maxOps
        (quicBindingReleaseStatelessOperation opId s)

/-- The inductive invariant of the cache. -/
structure CacheInv (maxOps : Nat) (s : BindingStateless) : Prop where
  count_eq : s.statelessOperCount = s.statelessOperList.length
  len_le : s.statelessOperList.length ≤ maxOps
  distinct : s.statelessOperList.Pairwise
    (fun a b => a.remoteAddress ≠ b.remoteAddress)
  sorted : s.statelessOperList.Pairwise
    (fun a b => a.creationTimeMs ≤ b.creationTimeMs)
  le_now : ∀ c ∈ s.statelessOperList, c.creationTimeMs ≤ s.now
  now_lt : s.now < 4294967296

theorem timeDiff32_eq_sub (s e : Nat) (h1 : s ≤ e) (h2 : e < 4294967296) :
    timeDiff32 s e = e - s := by
  unfold timeDiff32
  rw [Nat.mod_eq_of_lt (show e < 4294967296 by omega),
    Nat.mod_eq_of_lt (show s < 4294967296 by omega)]
  have h3 : 4294967296 + e - s = 4294967296 + (e - s) := by omega
  rw [h3, Nat.add_mod_left]
  exact Nat.mod_eq_of_lt (by omega)

theorem sweepExpiredList_sublist (expiry now : Nat) (l : List StatelessCtx) :
    (sweepExpiredList expiry now l).Sublist l := by
  induction l with
  | nil => simp [sweepExpiredList]
  | cons c rest ih =>
    unfold sweepExpiredList
    by_cases h : timeDiff32 c.creationTimeMs now < expiry
    · rw [if_pos h]
    · rw [if_neg h]
      exact ih.cons c

theorem mem_sweepExpiredList_of_young (expiry now : Nat)
    (l : List StatelessCtx) (c : StatelessCtx) (hc : c ∈ l)
    (hyoung : timeDiff32 c.creationTimeMs now < expiry) :
    c ∈ sweepExpiredList expiry now l := by
  induction l with
  | nil => cases hc
  | cons d rest ih =>
    unfold sweepExpiredList
    by_cases h : timeDiff32 d.creationTimeMs now < expiry
    · rw [if_pos h]
      exact hc
    · rw [if_neg h]
      rcases List.mem_cons.mp hc with h1 | h1
      · subst h1
        exact absurd hyoung h
      · exact ih h1

theorem sweepExpiredList_young (expiry now : Nat) (l : List StatelessCtx)
    (hsorted : l.Pairwise (fun a b => a.creationTimeMs ≤ b.creationTimeMs))
    (hle : ∀ c ∈ l, c.creationTimeMs ≤ now) (hlt : now < 4294967296) :
    ∀ c ∈ sweepExpiredList expiry now l,
      timeDiff32 c.creationTimeMs now < expiry := by
  induction l with
  | nil => simp [sweepExpiredList]
  | cons d rest ih =>
    unfold sweepExpiredList
    by_cases h : timeDiff32 d.creationTimeMs now < expiry
    · rw [if_pos h]
      intro c hc
      rcases List.mem_cons.mp hc with h1 | h1
      · subst h1
        exact h
      · have hdc : d.creationTimeMs ≤ c.creationTimeMs :=
          (List.pairwise_cons.mp hsorted).1 c h1
        have hcle : c.creationTimeMs ≤ now := hle c (List.mem_cons_of_mem d h1)
        have hdle : d.creationTimeMs ≤ now := hle d (List.mem_cons_self d rest)
        rw [timeDiff32_eq_sub _ _ hcle hlt]
        rw [timeDiff32_eq_sub _ _ hdle hlt] at h
        omega
    · rw [if_neg h]
      exact ih (List.pairwise_cons.mp hsorted).2
        (fun c hc => hle c (List.mem_cons_of_mem d hc))

theorem releaseCtx_fields (opId : Nat) (c : StatelessCtx) :
    ((if c.opId = opId then { c with isProcessed := true }
      else c) : StatelessCtx).remoteAddress = c.remoteAddress
  ∧ ((if c.opId = opId then { c with isProcessed := true }
      else c) : StatelessCtx).creationTimeMs = c.creationTimeMs := by
  by_cases h : c.opId = opId <;> simp [h]

/-- The cache invariant holds in every reachable state. -/
theorem statelessReach_inv (expiry maxOps : Nat) (s : BindingStateless)
    (h : StatelessReach expiry maxOps s) : CacheInv maxOps s := by
  induction h with
  | init =>
    exact ⟨rfl, by simp [initialBindingStateless],
      by simp [initialBindingStateless],
      by simp [initialBindingStateless],
      by simp [initialBindingStateless],
      by simp [initialBindingStateless]⟩
  | tick s t _ hle hlt ih =>
    exact ⟨ih.count_eq, ih.len_le, ih.distinct, ih.sorted,
      fun c hc => le_trans (ih.le_now c hc) hle, hlt⟩
  | create s allocOk addr _ ih =>
    have hsub := sweepExpiredList_sublist expiry s.now s.statelessOperList
    have hlen := hsub.length_le
    have hcnt : (sweepStatelessState expiry s).statelessOperCount
        = (sweepExpiredList expiry s.now s.statelessOperList).length := by
      simp only [sweepStatelessState]
      rw [ih.count_eq]
      omega
    have hinv1 : CacheInv maxOps (sweepStatelessState expiry s) := by
      refine ⟨hcnt, le_trans hlen ih.len_le, ih.distinct.sublist hsub,
        ih.sorted.sublist hsub,
        fun c hc => ih.le_now c (hsub.mem hc), ih.now_lt⟩
    unfold quicBindingCreateStatelessOperation
    by_cases hcap : (sweepStatelessState expiry s).statelessOperCount ≥ maxOps
    · rw [if_pos hcap]
      exact hinv1
    · rw [if_neg hcap]
      by_cases hdup : (sweepStatelessState expiry s).statelessOperList.any
          (fun c => decide (c.remoteAddress = addr))
      · rw [if_pos hdup]
        exact hinv1
      · rw [if_neg hdup]
        by_cases halloc : allocOk
        · rw [if_neg (by simpa using halloc)]
          have hnodup : ∀ c ∈ (sweepStatelessState expiry s).statelessOperList,
              c.remoteAddress ≠ addr := by
            intro c hc
            by_contra heq
            apply hdup
            rw [List.any_eq_true]
            exact ⟨c, hc, by simp [heq]⟩
          refine ⟨?_, ?_, ?_, ?_, ?_, ih.now_lt⟩
          · simp only [List.length_append, List.length_cons,
              List.length_nil]
            rw [hinv1.count_eq]
          · simp only [List.length_append, List.length_cons, List.length_nil]
            rw [← hinv1.count_eq]
            omega
          · rw [List.pairwise_append]
            refine ⟨hinv1.distinct, by simp, ?_⟩
            intro a ha b hb
            rw [List.mem_singleton] at hb
            subst hb
            exact hnodup a ha
          · rw [List.pairwise_append]
            refine ⟨hinv1.sorted, by simp, ?_⟩
            intro a ha b hb
            rw [List.mem_singleton] at hb
            subst hb
            exact hinv1.le_now a ha
          · intro c hc
            rcases List.mem_append.mp hc with h1 | h1
            · exact hinv1.le_now c h1
            · rw [List.mem_singleton] at h1
              subst h1
              exact le_refl _
        · rw [if_pos (by simpa using halloc)]
          exact hinv1
  | release s opId _ ih =>
    refine ⟨?_, ?_, ?_, ?_, ?_, ih.now_lt⟩
    · simp only [quicBindingReleaseStatelessOperation, List.length_map]
      exact ih.count_eq
    · simp only [quicBindingReleaseStatelessOperation, List.length_map]
      exact ih.len_le
    · simp only [quicBindingReleaseStatelessOperation]
      rw [List.pairwise_map]
      refine ih.distinct.imp ?_
      intro a b hab
      rw [(releaseCtx_fields opId a).1, (releaseCtx_fields opId b).1]
      exact hab
    · simp only [quicBindingReleaseStatelessOperation]
      rw [List.pairwise_map]
      refine ih.sorted.imp ?_
      intro a b hab
      rw [(releaseCtx_fields opId a).2, (releaseCtx_fields opId b).2]
      exact hab
    · simp only [quicBindingReleaseStatelessOperation]
      intro c hc
      rcases List.mem_map.mp hc with ⟨d, hd, hdc⟩
      rw [← hdc, (releaseCtx_fields opId d).2]
      exact ih.le_now d hd

/-- C7: in every reachable cache state the cache holds at most `maxOps`
entries and no two entries have equal remote addresses; and a create call
whose remote address already has a non-expired entry returns NULL and
inserts nothing (the resulting list is a sublist of the old one). -/
theorem stateless_cache_invariant (expiry maxOps : Nat)
    (s : BindingStateless) (h : StatelessReach expiry maxOps s) :
    s.statelessOperList.length ≤ maxOps
  ∧ s.statelessOperList.Pairwise
      (fun a b => a.remoteAddress ≠ b.remoteAddress)
  ∧ ∀ (addr : Addr) (allocOk : Bool),
      (∃ c ∈ s.statelessOperList, c.remoteAddress = addr ∧
        timeDiff32 c.creationTimeMs s.now < expiry) →
      (quicBindingCreateStatelessOperation expiry maxOps allocOk addr s).2
        = none
      ∧ ((quicBindingCreateStatelessOperation expiry maxOps allocOk
            addr s).1.statelessOperList).Sublist s.statelessOperList := by
  have inv := statelessReach_inv expiry maxOps s h
  refine ⟨inv.len_le, inv.distinct, ?_⟩
  rintro addr allocOk ⟨c, hc, haddr, hyoung⟩
  have hsub := sweepExpiredList_sublist expiry s.now s.statelessOperList
  have hmem : c ∈ sweepExpiredList expiry s.now s.statelessOperList :=
    mem_sweepExpiredList_of_young expiry s.now _ c hc hyoung
  have hany : (sweepStatelessState expiry s).statelessOperList.any
      (fun c => decide (c.remoteAddress = addr)) = true := by
    rw [List.any_eq_true]
    exact ⟨c, by simpa [sweepStatelessState] using hmem, by simp [haddr]⟩
  unfold quicBindingCreateStatelessOperation
  by_cases hcap : (sweepStatelessState expiry s).statelessOperCount ≥ maxOps
  · rw [if_pos hcap]
    exact ⟨rfl, by simpa [sweepStatelessState] using hsub⟩
  · rw [if_neg hcap, if_pos hany]
    exact ⟨rfl, by simpa [sweepStatelessState] using hsub⟩

/-- Witness for `stateless_cache_invariant`, at expiry = 100,
maxOps = 100 and the state reached by one create at time 0: one entry,
whose address ⟨2, 5, 443⟩ is young, so a second create for the same
address yields none. -/
theorem stateless_cache_invariant_witness :
    ((quicBindingCreateStatelessOperation 100 100 true ⟨2, 5, 443⟩
        initialBindingStateless).1.statelessOperList.length ≤ 100)
  ∧ ((quicBindingCreateStatelessOperation 100 100 true ⟨2, 5, 443⟩
        initialBindingStateless).1.statelessOperList.Pairwise
        (fun a b => a.remoteAddress ≠ b.remoteAddress))
  ∧ ∀ (addr : Addr) (allocOk : Bool),
      (∃ c ∈ (quicBindingCreateStatelessOperation 100 100 true ⟨2, 5, 443⟩
          initialBindingStateless).1.statelessOperList,
        c.remoteAddress = addr ∧
        timeDiff32 c.creationTimeMs
          (quicBindingCreateStatelessOperation 100 100 true ⟨2, 5, 443⟩
            initialBindingStateless).1.now < 100) →
      (quicBindingCreateStatelessOperation 100 100 allocOk addr
        (quicBindingCreateStatelessOperation 100 100 true ⟨2, 5, 443⟩
          initialBindingStateless).1).2 = none
      ∧ ((quicBindingCreateStatelessOperation 100 100 allocOk addr
            (quicBindingCreateStatelessOperation 100 100 true ⟨2, 5, 443⟩
              initialBindingStateless).1).1.statelessOperList).Sublist
          (quicBindingCreateStatelessOperation 100 100 true ⟨2, 5, 443⟩
            initialBindingStateless).1.statelessOperList :=
  stateless_cache_invariant 100 100 _
    (StatelessReach.create _ true ⟨2, 5, 443⟩ StatelessReach.init)

/-- The reachable state refuting C3 as stated: one entry created at time
0, clock now at 100 ms with no further create call, so the entry's age
equals QUIC_STATELESS_OPERATION_EXPIRATION_MS (taken as 100) and it is
still cached. -/
def statelessExpiredWitnessState : BindingStateless :=
  ⟨[⟨0, ⟨2, 5, 443⟩, 0, false⟩], 1, 1, 100⟩

/-- Counterexample to C3 as stated: expiry is enforced only by the sweep
at the start of a later create call; between calls an entry stays in the
cache arbitrarily long past its expiration. The state below is reachable
(create at t = 0, then the clock reaches t = 100) yet its entry violates
`now - creation < expiry` for expiry = 100. -/
theorem stateless_expiry_claim_counterexample :
    StatelessReach 100 100 statelessExpiredWitnessState
  ∧ ∃ c ∈ statelessExpiredWitnessState.statelessOperList,
      ¬ (timeDiff32 c.creationTimeMs statelessExpiredWitnessState.now
          < 100) := by
  constructor
  · have h1 : StatelessReach 100 100
        (quicBindingCreateStatelessOperation 100 100 true ⟨2, 5, 443⟩
          initialBindingStateless).1 :=
      StatelessReach.create _ true
      ⟨2, 5, 443⟩ StatelessReach.init
    have h2 := StatelessReach.tick _ 100 h1 (by decide) (by decide)
    have heq : ({ (quicBindingCreateStatelessOperation 100 100 true
        ⟨2, 5, 443⟩ initialBindingStateless).1 with now := 100 })
        = statelessExpiredWitnessState := by decide
    exact heq ▸ h2
  · exact ⟨⟨0, ⟨2, 5, 443⟩, 0, false⟩, by decide, by decide⟩

/-- C3 (amended): immediately after any `QuicBindingCreateStatelessOperation`
call on a reachable state — whether or not it inserts — every entry still
in the cache is younger than `expiry` relative to the time the call
sampled; entries can exceed the expiration only between calls. -/
theorem stateless_expiry_after_create (expiry maxOps : Nat)
    (hpos : 0 < expiry) (s : BindingStateless)
    (h : StatelessReach expiry maxOps s) (allocOk : Bool) (addr : Addr) :
    ∀ c ∈ (quicBindingCreateStatelessOperation expiry maxOps allocOk
        addr s).1.statelessOperList,
      timeDiff32 c.creationTimeMs
        (quicBindingCreateStatelessOperation expiry maxOps allocOk
          addr s).1.now < expiry := by
  have inv := statelessReach_inv expiry maxOps s h
  have hyoung := sweepExpiredList_young expiry s.now s.statelessOperList
    inv.sorted inv.le_now inv.now_lt
  have hnew : timeDiff32 s.now s.now < expiry := by
    rw [timeDiff32_eq_sub s.now s.now (le_refl _) inv.now_lt]
    omega
  unfold quicBindingCreateStatelessOperation
  by_cases hcap : (sweepStatelessState expiry s).statelessOperCount ≥ maxOps
  · rw [if_pos hcap]
    intro c hc
    exact hyoung c (by simpa [sweepStatelessState] using hc)
  · rw [if_neg hcap]
    by_cases hdup : (sweepStatelessState expiry s).statelessOperList.any
        (fun c => decide (c.remoteAddress = addr))
    · rw [if_pos hdup]
      intro c hc
      exact hyoung c (by simpa [sweepStatelessState] using hc)
    · rw [if_neg hdup]
      by_cases halloc : allocOk
      · rw [if_neg (by simpa using halloc)]
        intro c hc
        simp only [sweepStatelessState] at hc
        rcases List.mem_append.mp hc with h1 | h1
        · exact hyoung c h1
        · rw [List.mem_singleton] at h1
          subst h1
          exact hnew
      · rw [if_pos (by simpa using halloc)]
        intro c hc
        exact hyoung c (by simpa [sweepStatelessState] using hc)

/-- Witness for `stateless_expiry_after_create`, at expiry = maxOps = 100,
the empty initial state, a successful allocation and address ⟨2, 5, 443⟩. -/
theorem stateless_expiry_after_create_witness :
    (0 < 100)
  ∧ (∀ c ∈ (quicBindingCreateStatelessOperation 100 100 true ⟨2, 5, 443⟩
        initialBindingStateless).1.statelessOperList,
      timeDiff32 c.creationTimeMs
        (quicBindingCreateStatelessOperation 100 100 true ⟨2, 5, 443⟩
          initialBindingStateless).1.now < 100) :=
  ⟨by decide,
   stateless_expiry_after_create 100 100 (by decide) initialBindingStateless
     StatelessReach.init true ⟨2, 5, 443⟩⟩

/-! ## Receive dispatch and subchain splitting
(`QuicBindingReceive`, binding.c lines 1381-1520).

Per-datagram data: `destCid`/`isHandshake` are read from the packet after
preprocessing; `keep` is the Boolean result of
`QuicBindingPreprocessDatagram` and `releaseOnFail` its `*ReleaseDatagram`
out-value when `keep` is false (`keep = false, releaseOnFail = false`
means a queued Version-Negotiation stateless operation took ownership of
the datagram). The delivery outcome of `QuicBindingDeliverDatagrams` on a
subchain is the abstract predicate `deliverOk`.

The three tail pointers of the source (`SubChainTail` after the handshake
prefix, `SubChainDataTail` at the end, `ReleaseChainTail`) become the pair
`subHS`/`subData` with the chain being `subHS ++ subData`: a handshake
datagram is appended to `subHS` (i.e. inserted at `*SubChainTail`, before
the data packets), a non-handshake datagram to `subData`.

`handed` records every subchain passed to `QuicBindingDeliverDatagrams`
together with its result; a failed subchain is also appended to the
release chain, as in the source. `consumed` is a ghost accumulator for
datagrams owned by a stateless operation during preprocessing. -/

/-- A received datagram with its preprocessing outcome. -/
structure RecvDatagram where
  dgId : Nat
  destCid : List Nat
  isHandshake : Bool
  keep : Bool
  releaseOnFail : Bool
deriving DecidableEq, Repr

/-- The accumulator of the receive loop. -/
structure ReceiveAcc where
  handed : List (List RecvDatagram × Bool)
  released : List RecvDatagram
  consumed : List RecvDatagram
  subHS : List RecvDatagram
  subData : List RecvDatagram
deriving DecidableEq, Repr

/-- Deliver the current subchain: on success it is only recorded; on
failure it is appended to the release chain. Either way the subchain
accumulator is reset. -/
def flushSubchain (deliverOk : List RecvDatagram → Bool)
    (acc : ReceiveAcc) : ReceiveAcc :=
  if deliverOk (acc.subHS ++ acc.subData) then
    { acc with handed := acc.handed ++ [(acc.subHS ++ acc.subData, true)],
               subHS := [], subData := [] }
  else
    { acc with handed := acc.handed ++ [(acc.subHS ++ acc.subData, false)],
               released := acc.released ++ (acc.subHS ++ acc.subData),
               subHS := [], subData := [] }

/-- Insert a datagram into the current subchain, handshake packets before
the data packets. -/
def insertSubchain (d : RecvDatagram) (acc : ReceiveAcc) : ReceiveAcc :=
  if d.isHandshake then { acc with subHS := acc.subHS ++ [d] }
  else { acc with subData := acc.subData ++ [d] }

/-- One iteration of the receive loop: preprocess-failed datagrams go to
the release chain (or to a stateless operation); otherwise, when the
binding is not exclusive and the destination CID differs from the current
subchain's head, the subchain is delivered first. -/
def receiveStep (exclusive : Bool) (deliverOk : List RecvDatagram → Bool)
    (acc : ReceiveAcc) (d : RecvDatagram) : ReceiveAcc :=
  if d.keep = false then
    if d.releaseOnFail then { acc with released := acc.released ++ [d] }
    else { acc with consumed := acc.consumed ++ [d] }
  else
    match acc.subHS ++ acc.subData with
    | [] => insertSubchain d acc
    | h :: _ =>
      if exclusive = false ∧ d.destCid ≠ h.destCid then
        insertSubchain d (flushSubchain deliverOk acc)
      else insertSubchain d acc

/-- `QuicBindingReceive`: fold the loop over the chain, then deliver the
last subchain if nonempty. -/
def quicBindingReceive (exclusive : Bool)
    (deliverOk : List RecvDatagram → Bool) (chain : List RecvDatagram) :
    ReceiveAcc :=
  if (chain.foldl (receiveStep exclusive deliverOk)
      ⟨[], [], [], [], []⟩).subHS
   ++ (chain.foldl (receiveStep exclusive deliverOk)
      ⟨[], [], [], [], []⟩).subData = [] then
    chain.foldl (receiveStep exclusive deliverOk) ⟨[], [], [], [], []⟩
  else
    flushSubchain deliverOk
      (chain.foldl (receiveStep exclusive deliverOk) ⟨[], [], [], [], []⟩)

/-- The datagrams of the subchains that `QuicBindingDeliverDatagrams`
accepted. -/
def deliveredDatagrams (acc : ReceiveAcc) : List RecvDatagram :=
  ((acc.handed.filter (fun p => p.2)).map Prod.fst).flatten

/-- All datagrams accounted for by an accumulator, as a multiset. -/
def accContents (acc : ReceiveAcc) : Multiset RecvDatagram :=
  (deliveredDatagrams acc : List RecvDatagram)
  + (acc.released : List RecvDatagram)
  + (acc.consumed : List RecvDatagram)
  + ((acc.subHS ++ acc.subData : List RecvDatagram) : Multiset RecvDatagram)

theorem delivered_calc (hd : List (List RecvDatagram × Bool))
    (sub : List RecvDatagram) (b : Bool) :
    (((hd ++ [(sub, b)]).filter (fun p => p.2)).map Prod.fst).flatten
      = ((hd.filter (fun p => p.2)).map Prod.fst).flatten
        ++ (if b then sub else []) := by
  cases b <;> simp [List.filter_append]

theorem flushSubchain_contents (deliverOk : List RecvDatagram → Bool)
    (acc : ReceiveAcc) :
    accContents (flushSubchain deliverOk acc) = accContents acc := by
  unfold flushSubchain
  by_cases h : deliverOk (acc.subHS ++ acc.subData)
  · rw [if_pos h]
    unfold accContents deliveredDatagrams
    dsimp only
    rw [delivered_calc]
    simp only [if_true, List.append_nil]
    simp only [← Multiset.coe_add, ← Multiset.cons_coe,
      ← Multiset.singleton_add, Multiset.coe_nil]
    abel
  · rw [if_neg h]
    unfold accContents deliveredDatagrams
    dsimp only
    rw [delivered_calc]
    simp only [Bool.false_eq_true, if_false, List.append_nil]
    simp only [← Multiset.coe_add, ← Multiset.cons_coe,
      ← Multiset.singleton_add, Multiset.coe_nil]
    abel

theorem insertSubchain_contents (d : RecvDatagram) (acc : ReceiveAcc) :
    accContents (insertSubchain d acc) = accContents acc + {d} := by
  unfold insertSubchain accContents deliveredDatagrams
  by_cases h : d.isHandshake
  · rw [if_pos h]
    dsimp only
    simp only [← Multiset.coe_add, ← Multiset.cons_coe,
      ← Multiset.singleton_add, Multiset.coe_nil, Multiset.coe_singleton]
    abel
  · rw [if_neg h]
    dsimp only
    simp only [← Multiset.coe_add, ← Multiset.cons_coe,
      ← Multiset.singleton_add, Multiset.coe_nil, Multiset.coe_singleton]
    abel

theorem receiveStep_contents (exclusive : Bool)
    (deliverOk : List RecvDatagram → Bool) (acc : ReceiveAcc)
    (d : RecvDatagram) :
    accContents (receiveStep exclusive deliverOk acc d)
      = accContents acc + {d} := by
  unfold receiveStep
  by_cases hk : d.keep = false
  · rw [if_pos hk]
    by_cases hr : d.releaseOnFail
    · rw [if_pos hr]
      unfold accContents deliveredDatagrams
      dsimp only
      simp only [← Multiset.coe_add, ← Multiset.cons_coe,
        ← Multiset.singleton_add, Multiset.coe_nil, Multiset.coe_singleton]
      abel
    · rw [if_neg hr]
      unfold accContents deliveredDatagrams
      dsimp only
      simp only [← Multiset.coe_add, ← Multiset.cons_coe,
        ← Multiset.singleton_add, Multiset.coe_nil, Multiset.coe_singleton]
      abel
  · rw [if_neg hk]
    cases hcur : acc.subHS ++ acc.subData with
    | nil => exact insertSubchain_contents d acc
    | cons h t =>
      show accContents
          (if exclusive = false ∧ d.destCid ≠ h.destCid then
            insertSubchain d (flushSubchain deliverOk acc)
          else insertSubchain d acc)
        = accContents acc + {d}
      by_cases hsplit : exclusive = false ∧ d.destCid ≠ h.destCid
      · rw [if_pos hsplit]
        rw [insertSubchain_contents, flushSubchain_contents]
      · rw [if_neg hsplit]
        exact insertSubchain_contents d acc

theorem foldl_receiveStep_contents (exclusive : Bool)
    (deliverOk : List RecvDatagram → Bool) (chain : List RecvDatagram)
    (acc : ReceiveAcc) :
    accContents (chain.foldl (receiveStep exclusive deliverOk) acc)
      = accContents acc + (chain : Multiset RecvDatagram) := by
  induction chain generalizing acc with
  | nil =>
    rw [List.foldl_nil, Multiset.coe_nil, add_zero]
  | cons d rest ih =>
    rw [List.foldl_cons, ih, receiveStep_contents]
    simp only [← Multiset.cons_coe, ← Multiset.singleton_add]
    abel

/-- Every datagram of the list carries the same destination CID. -/
def uniformCid (l : List RecvDatagram) : Prop :=
  ∀ x ∈ l, ∀ y ∈ l, x.destCid = y.destCid

/-- The uniformity invariant of the receive loop: every subchain handed
to `QuicBindingDeliverDatagrams` so far was nonempty and CID-uniform, and
the current subchain is CID-uniform. -/
def AccUniform (acc : ReceiveAcc) : Prop :=
  (∀ p ∈ acc.handed, p.1 ≠ [] ∧ uniformCid p.1)
  ∧ uniformCid (acc.subHS ++ acc.subData)

theorem flushSubchain_uniform (deliverOk : List RecvDatagram → Bool)
    (acc : ReceiveAcc) (hinv : AccUniform acc)
    (hne : acc.subHS ++ acc.subData ≠ []) :
    AccUniform (flushSubchain deliverOk acc)
  ∧ (flushSubchain deliverOk acc).subHS = []
  ∧ (flushSubchain deliverOk acc).subData = [] := by
  unfold flushSubchain
  by_cases h : deliverOk (acc.subHS ++ acc.subData)
  · rw [if_pos h]
    refine ⟨⟨?_, ?_⟩, rfl, rfl⟩
    · intro p hp
      rcases List.mem_append.mp hp with h1 | h1
      · exact hinv.1 p h1
      · rw [List.mem_singleton] at h1
        subst h1
        exact ⟨hne, hinv.2⟩
    · intro x hx
      simp at hx
  · rw [if_neg h]
    refine ⟨⟨?_, ?_⟩, rfl, rfl⟩
    · intro p hp
      rcases List.mem_append.mp hp with h1 | h1
      · exact hinv.1 p h1
      · rw [List.mem_singleton] at h1
        subst h1
        exact ⟨hne, hinv.2⟩
    · intro x hx
      simp at hx

theorem insertSubchain_mem (d x : RecvDatagram) (acc : ReceiveAcc) :
    (x ∈ (insertSubchain d acc).subHS ++ (insertSubchain d acc).subData)
      ↔ x ∈ acc.subHS ++ acc.subData ∨ x = d := by
  unfold insertSubchain
  by_cases h : d.isHandshake
  · rw [if_pos h]
    dsimp only
    simp only [List.mem_append, List.mem_singleton]
    tauto
  · rw [if_neg h]
    dsimp only
    simp only [List.mem_append, List.mem_singleton]
    tauto

theorem insertSubchain_handed (d : RecvDatagram) (acc : ReceiveAcc) :
    (insertSubchain d acc).handed = acc.handed := by
  unfold insertSubchain
  by_cases h : d.isHandshake
  · rw [if_pos h]
  · rw [if_neg h]

theorem insertSubchain_uniform (d : RecvDatagram) (acc : ReceiveAcc)
    (hinv : AccUniform acc)
    (hcid : ∀ x ∈ acc.subHS ++ acc.subData, x.destCid = d.destCid) :
    AccUniform (insertSubchain d acc) := by
  refine ⟨?_, ?_⟩
  · rw [insertSubchain_handed]
    exact hinv.1
  · intro x hx y hy
    rcases (insertSubchain_mem d x acc).mp hx with h1 | h1 <;>
      rcases (insertSubchain_mem d y acc).mp hy with h2 | h2
    · exact hinv.2 x h1 y h2
    · subst h2
      exact hcid x h1
    · subst h1
      exact (hcid y h2).symm
    · subst h1
      subst h2
      rfl

theorem receiveStep_uniform (exclusive : Bool)
    (deliverOk : List RecvDatagram → Bool) (acc : ReceiveAcc)
    (d : RecvDatagram) (hexcl : exclusive = false)
    (hinv : AccUniform acc) :
    AccUniform (receiveStep exclusive deliverOk acc d) := by
  unfold receiveStep
  by_cases hk : d.keep = false
  · rw [if_pos hk]
    by_cases hr : d.releaseOnFail
    · rw [if_pos hr]
      exact hinv
    · rw [if_neg hr]
      exact hinv
  · rw [if_neg hk]
    cases hcur : acc.subHS ++ acc.subData with
    | nil =>
      refine insertSubchain_uniform d acc hinv ?_
      intro x hx
      rw [hcur] at hx
      cases hx
    | cons h t =>
      show AccUniform
        (if exclusive = false ∧ d.destCid ≠ h.destCid then
          insertSubchain d (flushSubchain deliverOk acc)
        else insertSubchain d acc)
      by_cases hsplit : exclusive = false ∧ d.destCid ≠ h.destCid
      · rw [if_pos hsplit]
        have hfl := flushSubchain_uniform deliverOk acc hinv
          (by rw [hcur]; simp)
        refine insertSubchain_uniform d _ hfl.1 ?_
        intro x hx
        rw [hfl.2.1, hfl.2.2] at hx
        cases hx
      · rw [if_neg hsplit]
        have heq : d.destCid = h.destCid := by
          rcases not_and_or.mp hsplit with h1 | h1
          · exact absurd hexcl h1
          · rw [not_not] at h1
            exact h1
        refine insertSubchain_uniform d acc hinv ?_
        intro x hx
        have hh : h ∈ acc.subHS ++ acc.subData := by
          rw [hcur]
          exact List.mem_cons_self h t
        rw [heq]
        exact hinv.2 x hx h hh

theorem foldl_receiveStep_uniform (exclusive : Bool)
    (deliverOk : List RecvDatagram → Bool) (chain : List RecvDatagram)
    (acc : ReceiveAcc) (hexcl : exclusive = false)
    (hinv : AccUniform acc) :
    AccUniform (chain.foldl (receiveStep exclusive deliverOk) acc) := by
  induction chain generalizing acc with
  | nil => exact hinv
  | cons d rest ih =>
    rw [List.foldl_cons]
    exact ih _ (receiveStep_uniform exclusive deliverOk acc d hexcl hinv)

theorem receive_contents (exclusive : Bool)
    (deliverOk : List RecvDatagram → Bool) (chain : List RecvDatagram) :
    accContents (quicBindingReceive exclusive deliverOk chain)
      = (chain : Multiset RecvDatagram) := by
  have hinit : accContents ⟨[], [], [], [], []⟩ = 0 := rfl
  unfold quicBindingReceive
  by_cases h : (chain.foldl (receiveStep exclusive deliverOk)
        ⟨[], [], [], [], []⟩).subHS
      ++ (chain.foldl (receiveStep exclusive deliverOk)
        ⟨[], [], [], [], []⟩).subData = []
  · rw [if_pos h, foldl_receiveStep_contents, hinit, zero_add]
  · rw [if_neg h, flushSubchain_contents, foldl_receiveStep_contents,
      hinit, zero_add]

theorem receive_current_nil (exclusive : Bool)
    (deliverOk : List RecvDatagram → Bool) (chain : List RecvDatagram) :
    (quicBindingReceive exclusive deliverOk chain).subHS = []
  ∧ (quicBindingReceive exclusive deliverOk chain).subData = [] := by
  unfold quicBindingReceive
  by_cases h : (chain.foldl (receiveStep exclusive deliverOk)
        ⟨[], [], [], [], []⟩).subHS
      ++ (chain.foldl (receiveStep exclusive deliverOk)
        ⟨[], [], [], [], []⟩).subData = []
  · rw [if_pos h]
    exact List.append_eq_nil.mp h
  · rw [if_neg h]
    unfold flushSubchain
    by_cases hd : deliverOk
        ((chain.foldl (receiveStep exclusive deliverOk)
          ⟨[], [], [], [], []⟩).subHS
        ++ (chain.foldl (receiveStep exclusive deliverOk)
          ⟨[], [], [], [], []⟩).subData)
    · rw [if_pos hd]
      exact ⟨rfl, rfl⟩
    · rw [if_neg hd]
      exact ⟨rfl, rfl⟩

theorem receiveStep_consumed (exclusive : Bool)
    (deliverOk : List RecvDatagram → Bool) (acc : ReceiveAcc)
    (d : RecvDatagram) :
    (receiveStep exclusive deliverOk acc d).consumed
      = acc.consumed
        ++ (if d.keep = false ∧ d.releaseOnFail = false then [d]
            else []) := by
  have hflhC : ∀ acc' : ReceiveAcc,
      (flushSubchain deliverOk acc').consumed = acc'.consumed := by
    intro acc'
    unfold flushSubchain
    by_cases h : deliverOk (acc'.subHS ++ acc'.subData)
    · rw [if_pos h]
    · rw [if_neg h]
  have hinsC : ∀ acc' : ReceiveAcc,
      (insertSubchain d acc').consumed = acc'.consumed := by
    intro acc'
    unfold insertSubchain
    by_cases h : d.isHandshake
    · rw [if_pos h]
    · rw [if_neg h]
  unfold receiveStep
  by_cases hk : d.keep = false
  · rw [if_pos hk]
    by_cases hr : d.releaseOnFail
    · rw [if_pos hr]
      dsimp only
      rw [if_neg (by simp [hr]), List.append_nil]
    · rw [if_neg hr]
      dsimp only
      rw [if_pos ⟨hk, by simpa using hr⟩]
  · rw [if_neg hk]
    have hnone : (if d.keep = false ∧ d.releaseOnFail = false then [d]
        else ([] : List RecvDatagram)) = [] := by
      rw [if_neg (by tauto)]
    rw [hnone, List.append_nil]
    cases hcur : acc.subHS ++ acc.subData with
    | nil => exact hinsC acc
    | cons h t =>
      show (if exclusive = false ∧ d.destCid ≠ h.destCid then
          insertSubchain d (flushSubchain deliverOk acc)
        else insertSubchain d acc).consumed = acc.consumed
      by_cases hsplit : exclusive = false ∧ d.destCid ≠ h.destCid
      · rw [if_pos hsplit, hinsC, hflhC]
      · rw [if_neg hsplit, hinsC]

theorem foldl_receiveStep_consumed (exclusive : Bool)
    (deliverOk : List RecvDatagram → Bool) (chain : List RecvDatagram)
    (acc : ReceiveAcc) :
    (chain.foldl (receiveStep exclusive deliverOk) acc).consumed
      = acc.consumed
        ++ chain.filter
            (fun d => decide (d.keep = false ∧ d.releaseOnFail = false)) := by
  induction chain generalizing acc with
  | nil => simp
  | cons d rest ih =>
    rw [List.foldl_cons, ih, receiveStep_consumed, List.filter_cons]
    by_cases h : d.keep = false ∧ d.releaseOnFail = false
    · rw [if_pos h, if_pos (by simpa using h)]
      simp
    · rw [if_neg h, if_neg (by simpa using h)]
      simp

theorem receive_consumed (exclusive : Bool)
    (deliverOk : List RecvDatagram → Bool) (chain : List RecvDatagram) :
    (quicBindingReceive exclusive deliverOk chain).consumed
      = chain.filter
          (fun d => decide (d.keep = false ∧ d.releaseOnFail = false)) := by
  have hflhC : ∀ acc' : ReceiveAcc,
      (flushSubchain deliverOk acc').consumed = acc'.consumed := by
    intro acc'
    unfold flushSubchain
    by_cases h : deliverOk (acc'.subHS ++ acc'.subData)
    · rw [if_pos h]
    · rw [if_neg h]
  unfold quicBindingReceive
  by_cases h : (chain.foldl (receiveStep exclusive deliverOk)
        ⟨[], [], [], [], []⟩).subHS
      ++ (chain.foldl (receiveStep exclusive deliverOk)
        ⟨[], [], [], [], []⟩).subData = []
  · rw [if_pos h, foldl_receiveStep_consumed]
    simp
  · rw [if_neg h, hflhC, foldl_receiveStep_consumed]
    simp

/-- C8 (amended): `QuicBindingReceive` accounts for every datagram of the
input chain exactly once — as a multiset, the datagrams of the
successfully delivered subchains, the release chain, and the datagrams
consumed by a Version-Negotiation stateless operation during
preprocessing add up to the input chain; the consumed ones are exactly
those whose preprocessing queued a stateless operation
(`keep = false, releaseOnFail = false`); and on a non-exclusive binding
every subchain handed to `QuicBindingDeliverDatagrams` is nonempty with
all datagrams sharing one destination CID byte-for-byte. -/
theorem quicBindingReceive_spec (exclusive : Bool)
    (deliverOk : List RecvDatagram → Bool) (chain : List RecvDatagram) :
    ((deliveredDatagrams (quicBindingReceive exclusive deliverOk chain) :
        List RecvDatagram)
      + ((quicBindingReceive exclusive deliverOk chain).released :
        List RecvDatagram)
      + ((quicBindingReceive exclusive deliverOk chain).consumed :
        List RecvDatagram)
      : Multiset RecvDatagram)
      = (chain : Multiset RecvDatagram)
  ∧ ((quicBindingReceive exclusive deliverOk chain).consumed
      = chain.filter
          (fun d => decide (d.keep = false ∧ d.releaseOnFail = false)))
  ∧ (exclusive = false →
      ∀ p ∈ (quicBindingReceive exclusive deliverOk chain).handed,
        p.1 ≠ [] ∧ ∀ x ∈ p.1, ∀ y ∈ p.1, x.destCid = y.destCid) := by
  refine ⟨?_, receive_consumed exclusive deliverOk chain, ?_⟩
  · have hc := receive_contents exclusive deliverOk chain
    have hn := receive_current_nil exclusive deliverOk chain
    unfold accContents at hc
    rw [hn.1, hn.2] at hc
    rw [show ((([] ++ [] : List RecvDatagram)) : Multiset RecvDatagram)
      = 0 from rfl, add_zero] at hc
    exact hc
  · intro hexcl
    have hinit : AccUniform ⟨[], [], [], [], []⟩ := by
      constructor
      · intro p hp
        simp at hp
      · intro x hx
        simp at hx
    have hfold := foldl_receiveStep_uniform exclusive deliverOk chain
      ⟨[], [], [], [], []⟩ hexcl hinit
    unfold quicBindingReceive
    by_cases h : (chain.foldl (receiveStep exclusive deliverOk)
          ⟨[], [], [], [], []⟩).subHS
        ++ (chain.foldl (receiveStep exclusive deliverOk)
          ⟨[], [], [], [], []⟩).subData = []
    · rw [if_pos h]
      exact fun p hp => hfold.1 p hp
    · rw [if_neg h]
      exact fun p hp =>
        (flushSubchain_uniform deliverOk _ hfold h).1.1 p hp

/-- A datagram whose preprocessing queued a Version-Negotiation stateless
operation: `QuicBindingPreprocessDatagram` returned FALSE with
`*ReleaseDatagram = FALSE`. -/
def vnConsumedDatagram : RecvDatagram := ⟨0, [1], false, false, false⟩

/-- Counterexample to C8 as stated: the datagram below is in the input
chain of `QuicBindingReceive` but is neither placed in any subchain
handed to `QuicBindingDeliverDatagrams` nor appended to the release
chain — a queued Version-Negotiation stateless operation took ownership
of it during preprocessing, a third path the claim omits. -/
theorem receive_claim_counterexample :
    (quicBindingReceive false (fun _ => true) [vnConsumedDatagram]).handed
      = []
  ∧ (quicBindingReceive false (fun _ => true)
      [vnConsumedDatagram]).released = []
  ∧ (quicBindingReceive false (fun _ => true)
      [vnConsumedDatagram]).consumed = [vnConsumedDatagram] :=
  ⟨rfl, rfl, rfl⟩

/-- Witness for `quicBindingReceive_spec` on a concrete two-CID chain on a
shared binding. -/
theorem quicBindingReceive_spec_witness :
    (((deliveredDatagrams (quicBindingReceive false (fun _ => true)
        [⟨1, [5], false, true, true⟩, ⟨2, [6], true, true, true⟩]) :
          List RecvDatagram)
      + ((quicBindingReceive false (fun _ => true)
        [⟨1, [5], false, true, true⟩, ⟨2, [6], true, true, true⟩]).released :
          List RecvDatagram)
      + ((quicBindingReceive false (fun _ => true)
        [⟨1, [5], false, true, true⟩, ⟨2, [6], true, true, true⟩]).consumed :
          List RecvDatagram)
      : Multiset RecvDatagram)
      = ([⟨1, [5], false, true, true⟩, ⟨2, [6], true, true, true⟩] :
          List RecvDatagram)
  ∧ ((quicBindingReceive false (fun _ => true)
      [⟨1, [5], false, true, true⟩, ⟨2, [6], true, true, true⟩]).consumed
      = [⟨1, [5], false, true, true⟩,
          ⟨2, [6], true, true, true⟩].filter
          (fun d => decide (d.keep = false ∧ d.releaseOnFail = false)))
  ∧ (false = false →
      ∀ p ∈ (quicBindingReceive false (fun _ => true)
          [⟨1, [5], false, true, true⟩, ⟨2, [6], true, true, true⟩]).handed,
        p.1 ≠ [] ∧ ∀ x ∈ p.1, ∀ y ∈ p.1, x.destCid = y.destCid)) :=
  quicBindingReceive_spec false (fun _ => true)
    [⟨1, [5], false, true, true⟩, ⟨2, [6], true, true, true⟩]

/-! ## Listener registry
(`QuicBindingRegisterListener` lines 280-369 and
`QuicBindingUnregisterListener` lines 418-428 of binding.c).

A listener is modelled by its local address (family and IP — the
scan's `QuicAddrCompareIp` never looks at the port), its wildcard flag,
and the ALPN set of its session (`QuicSessionHasAlpnOverlap`, which lives
in the session code outside `src/`, is any shared ALPN). The list is kept
sorted: families in descending numeric order — on both Windows and POSIX
AF_INET6 > AF_INET > AF_UNSPEC = 0 — and, within a family, specific
addresses before wildcard addresses. -/

/-- AF_UNSPEC. -/
def AF_UNSPEC : Nat := 0

/-- A registered listener as the scan of `QuicBindingRegisterListener`
sees it. `lid` stands for the object identity. -/
structure Listener where
  lid : Nat
  family : Nat
  ip : Nat
  wildCard : Bool
  alpns : List (List Nat)
deriving DecidableEq, Repr

/-- Modelled from the spec: `QuicSessionHasAlpnOverlap` (session code,
not under `src/`) — two sessions overlap when they share an ALPN. -/
def alpnOverlap (a b : List (List Nat)) : Bool :=
  a.any (fun x => decide (x ∈ b))

/-- The scan loop of `QuicBindingRegisterListener`: walk the sorted list;
`some i` means the loop stopped (by family/specificity break or list end)
with the new listener to be inserted before position `i`; `none` means a
same-bucket listener with matching address (or UNSPEC family) and
overlapping ALPN was found and registration is refused. -/
def scanListeners (nw : Listener) : List Listener → Option Nat
  | [] => some 0
  | e :: rest =>
    if e.family < nw.family then some 0
    else if nw.family ≠ e.family then (scanListeners nw rest).map (· + 1)
    else if nw.wildCard = false ∧ e.wildCard = true then some 0
    else if nw.wildCard ≠ e.wildCard then (scanListeners nw rest).map (· + 1)
    else if nw.family ≠ AF_UNSPEC
        ∧ ¬(nw.family = e.family ∧ nw.ip = e.ip) then
      (scanListeners nw rest).map (· + 1)
    else if alpnOverlap nw.alpns e.alpns then none
    else (scanListeners nw rest).map (· + 1)

/-- `QuicBindingRegisterListener`: refuse on a scan conflict; otherwise
insert at the scan's stop position. If the list was empty before insert
and `QuicLookupMaximizePartitioning` fails (`maximizeOk = false`), the
listener is unregistered again and registration fails — the list is back
to its previous (empty) value. -/
def quicBindingRegisterListener (maximizeOk : Bool)
    (listeners : List Listener) (nw : Listener) : List Listener × Bool :=
  match scanListeners nw listeners with
  | none => (listeners, false)
  | some i =>
    if listeners.isEmpty ∧ maximizeOk = false then (listeners, false)
    else (listeners.take i ++ nw :: listeners.drop i, true)

/-- The conflict the claim describes: same (family, specificity) bucket,
matching address (or UNSPEC family), and overlapping ALPN sets. -/
def listenerConflict (a b : Listener) : Prop :=
  a.family = b.family ∧ a.wildCard = b.wildCard
  ∧ (a.family = AF_UNSPEC ∨ a.ip = b.ip)
  ∧ alpnOverlap a.alpns b.alpns = true

/-- The sort order of the listener list: `a` may precede `b`. -/
def listenerOrder (a b : Listener) : Prop :=
  b.family < a.family
  ∨ (a.family = b.family ∧ (a.wildCard = false ∨ b.wildCard = true))

theorem alpnOverlap_iff (a b : List (List Nat)) :
    alpnOverlap a b = true ↔ ∃ x, x ∈ a ∧ x ∈ b := by
  unfold alpnOverlap
  rw [List.any_eq_true]
  simp

theorem listenerConflict_symm (a b : Listener)
    (h : listenerConflict a b) : listenerConflict b a := by
  obtain ⟨hf, hw, hip, hov⟩ := h
  refine ⟨hf.symm, hw.symm, ?_, ?_⟩
  · rcases hip with h1 | h1
    · exact Or.inl (hf ▸ h1)
    · exact Or.inr h1.symm
  · rw [alpnOverlap_iff] at hov ⊢
    obtain ⟨x, hx1, hx2⟩ := hov
    exact ⟨x, hx2, hx1⟩

theorem listenerOrder_trans (a b c : Listener)
    (h1 : listenerOrder a b) (h2 : listenerOrder b c) :
    listenerOrder a c := by
  rcases h1 with h1 | ⟨hf1, hw1⟩ <;> rcases h2 with h2 | ⟨hf2, hw2⟩
  · exact Or.inl (by omega)
  · exact Or.inl (by omega)
  · exact Or.inl (by omega)
  · refine Or.inr ⟨hf1.trans hf2, ?_⟩
    rcases hw1 with h | h
    · exact Or.inl h
    · rcases hw2 with h' | h'
      · rw [h] at h'
        cases h'
      · exact Or.inr h'

theorem listenerOrder_refl (a : Listener) : listenerOrder a a := by
  refine Or.inr ⟨rfl, ?_⟩
  cases h : a.wildCard
  · exact Or.inl rfl
  · exact Or.inr rfl

theorem exists_cons_iff_head_impossible {P : Listener → Prop}
    (e : Listener) (rest : List Listener) (h : ¬ P e) :
    (∃ x ∈ rest, P x) ↔ ∃ x ∈ e :: rest, P x := by
  constructor
  · rintro ⟨x, hx, hp⟩
    exact ⟨x, List.mem_cons_of_mem e hx, hp⟩
  · rintro ⟨x, hx, hp⟩
    rcases List.mem_cons.mp hx with h1 | h1
    · subst h1
      exact absurd hp h
    · exact ⟨x, h1, hp⟩

/-- On a sorted listener list the scan refuses exactly when a conflicting
listener is registered: the family/specificity sort order makes the early
breaks safe. -/
theorem scanListeners_none_iff (nw : Listener) (L : List Listener)
    (hsorted : L.Pairwise listenerOrder) :
    scanListeners nw L = none ↔ ∃ e ∈ L, listenerConflict nw e := by
  induction L with
  | nil => simp [scanListeners]
  | cons e rest ih =>
    obtain ⟨hord, hrest⟩ := List.pairwise_cons.mp hsorted
    have ih' := ih hrest
    simp only [scanListeners]
    by_cases b1 : e.family < nw.family
    · rw [if_pos b1]
      constructor
      · intro h
        cases h
      · rintro ⟨x, hx, hc⟩
        obtain ⟨hcf, hcw, hcip, hcov⟩ := hc
        exfalso
        rcases List.mem_cons.mp hx with h1 | h1
        · subst h1
          omega
        · rcases hord x h1 with h2 | ⟨h2, -⟩ <;> omega
    · rw [if_neg b1]
      by_cases b2 : nw.family ≠ e.family
      · rw [if_pos b2, Option.map_eq_none', ih']
        refine exists_cons_iff_head_impossible e rest ?_
        rintro ⟨hcf, -, -, -⟩
        exact b2 hcf
      · rw [if_neg b2]
        push_neg at b2
        by_cases b3 : nw.wildCard = false ∧ e.wildCard = true
        · rw [if_pos b3]
          constructor
          · intro h
            cases h
          · rintro ⟨x, hx, hc⟩
            obtain ⟨hcf, hcw, hcip, hcov⟩ := hc
            exfalso
            rcases List.mem_cons.mp hx with h1 | h1
            · subst h1
              rw [b3.1, b3.2] at hcw
              cases hcw
            · rcases hord x h1 with h2 | ⟨-, hw⟩
              · omega
              · rcases hw with hw | hw
                · rw [hw] at b3
                  exact absurd b3.2 (by simp)
                · rw [b3.1, hw] at hcw
                  cases hcw
        · rw [if_neg b3]
          by_cases b4 : nw.wildCard ≠ e.wildCard
          · rw [if_pos b4, Option.map_eq_none', ih']
            refine exists_cons_iff_head_impossible e rest ?_
            rintro ⟨-, hcw, -, -⟩
            exact b4 hcw
          · rw [if_neg b4]
            push_neg at b4
            by_cases b5 : nw.family ≠ AF_UNSPEC
                ∧ ¬(nw.family = e.family ∧ nw.ip = e.ip)
            · rw [if_pos b5, Option.map_eq_none', ih']
              refine exists_cons_iff_head_impossible e rest ?_
              rintro ⟨hcf, -, hcip, -⟩
              rcases hcip with h2 | h2
              · exact b5.1 h2
              · exact b5.2 ⟨hcf, h2⟩
            · rw [if_neg b5]
              rw [not_and_or, not_not, not_not] at b5
              by_cases b6 : alpnOverlap nw.alpns e.alpns
              · rw [if_pos b6]
                have hip : nw.family = AF_UNSPEC ∨ nw.ip = e.ip := by
                  rcases b5 with h2 | h2
                  · exact Or.inl h2
                  · exact Or.inr h2.2
                constructor
                · intro _
                  exact ⟨e, List.mem_cons_self e rest, b2, b4, hip, b6⟩
                · intro _
                  rfl
              · rw [if_neg b6, Option.map_eq_none', ih']
                refine exists_cons_iff_head_impossible e rest ?_
                rintro ⟨-, -, -, hcov⟩
                exact b6 hcov

/-- When the scan stops at position `i`, inserting there preserves the
sort order: everything before position `i` may precede the new listener
and the new listener may precede everything from position `i` on. -/
theorem scanListeners_some_order (nw : Listener) (L : List Listener)
    (hsorted : L.Pairwise listenerOrder) (i : Nat)
    (h : scanListeners nw L = some i) :
    (∀ e ∈ L.take i, listenerOrder e nw)
  ∧ (∀ e ∈ L.drop i, listenerOrder nw e) := by
  induction L generalizing i with
  | nil =>
    constructor
    · intro e he
      simp at he
    · intro e he
      simp at he
  | cons e rest ih =>
    obtain ⟨hord, hrest⟩ := List.pairwise_cons.mp hsorted
    simp only [scanListeners] at h
    by_cases b1 : e.family < nw.family
    · rw [if_pos b1, Option.some.injEq] at h
      subst h
      refine ⟨fun x hx => by simp at hx, ?_⟩
      intro x hx
      rcases List.mem_cons.mp hx with h1 | h1
      · subst h1
        exact Or.inl b1
      · exact listenerOrder_trans nw e x (Or.inl b1) (hord x h1)
    · rw [if_neg b1] at h
      by_cases b2 : nw.family ≠ e.family
      · rw [if_pos b2, Option.map_eq_some'] at h
        obtain ⟨j, hj, hji⟩ := h
        obtain ⟨ih1, ih2⟩ := ih hrest j hj
        subst hji
        rw [List.take_succ_cons, List.drop_succ_cons]
        refine ⟨?_, ih2⟩
        intro x hx
        rcases List.mem_cons.mp hx with h1 | h1
        · subst h1
          exact Or.inl (by omega)
        · exact ih1 x h1
      · rw [if_neg b2] at h
        push_neg at b2
        by_cases b3 : nw.wildCard = false ∧ e.wildCard = true
        · rw [if_pos b3, Option.some.injEq] at h
          subst h
          have hne : listenerOrder nw e := Or.inr ⟨b2, Or.inl b3.1⟩
          refine ⟨fun x hx => by simp at hx, ?_⟩
          intro x hx
          rcases List.mem_cons.mp hx with h1 | h1
          · subst h1
            exact hne
          · exact listenerOrder_trans nw e x hne (hord x h1)
        · rw [if_neg b3] at h
          by_cases b4 : nw.wildCard ≠ e.wildCard
          · rw [if_pos b4, Option.map_eq_some'] at h
            obtain ⟨j, hj, hji⟩ := h
            obtain ⟨ih1, ih2⟩ := ih hrest j hj
            subst hji
            rw [List.take_succ_cons, List.drop_succ_cons]
            refine ⟨?_, ih2⟩
            intro x hx
            rcases List.mem_cons.mp hx with h1 | h1
            · subst h1
              have hxw : x.wildCard = false := by
                rcases Bool.eq_false_or_eq_true x.wildCard with hh | hh
                · exfalso
                  apply b3
                  refine ⟨?_, hh⟩
                  rcases Bool.eq_false_or_eq_true nw.wildCard with h2 | h2
                  · rw [h2, hh] at b4
                    exact absurd rfl b4
                  · exact h2
                · exact hh
              exact Or.inr ⟨b2.symm, Or.inl hxw⟩
            · exact ih1 x h1
          · rw [if_neg b4] at h
            push_neg at b4
            have hewnw : listenerOrder e nw := by
              refine Or.inr ⟨b2.symm, ?_⟩
              rcases Bool.eq_false_or_eq_true e.wildCard with hh | hh
              · exact Or.inr (by rw [b4, hh])
              · exact Or.inl hh
            by_cases b5 : nw.family ≠ AF_UNSPEC
                ∧ ¬(nw.family = e.family ∧ nw.ip = e.ip)
            · rw [if_pos b5, Option.map_eq_some'] at h
              obtain ⟨j, hj, hji⟩ := h
              obtain ⟨ih1, ih2⟩ := ih hrest j hj
              subst hji
              rw [List.take_succ_cons, List.drop_succ_cons]
              refine ⟨?_, ih2⟩
              intro x hx
              rcases List.mem_cons.mp hx with h1 | h1
              · subst h1
                exact hewnw
              · exact ih1 x h1
            · rw [if_neg b5] at h
              by_cases b6 : alpnOverlap nw.alpns e.alpns
              · rw [if_pos b6] at h
                cases h
              · rw [if_neg b6, Option.map_eq_some'] at h
                obtain ⟨j, hj, hji⟩ := h
                obtain ⟨ih1, ih2⟩ := ih hrest j hj
                subst hji
                rw [List.take_succ_cons, List.drop_succ_cons]
                refine ⟨?_, ih2⟩
                intro x hx
                rcases List.mem_cons.mp hx with h1 | h1
                · subst h1
                  exact hewnw
                · exact ih1 x h1

theorem pairwise_insertAt (R : Listener → Listener → Prop)
    (L : List Listener) (nw : Listener) (i : Nat)
    (hL : L.Pairwise R)
    (h1 : ∀ e ∈ L.take i, R e nw) (h2 : ∀ e ∈ L.drop i, R nw e) :
    (L.take i ++ nw :: L.drop i).Pairwise R := by
  have hp : (L.take i ++ L.drop i).Pairwise R := by
    rw [List.take_append_drop]
    exact hL
  obtain ⟨hpt, hpd, hcross⟩ := List.pairwise_append.mp hp
  rw [List.pairwise_append, List.pairwise_cons]
  refine ⟨hpt, ⟨h2, hpd⟩, ?_⟩
  intro a ha b hb
  rcases List.mem_cons.mp hb with hb | hb
  · subst hb
    exact h1 a ha
  · exact hcross a ha b hb

theorem register_result (maximizeOk : Bool) (L : List Listener)
    (nw : Listener) :
    (scanListeners nw L = none →
      quicBindingRegisterListener maximizeOk L nw = (L, false))
  ∧ (∀ i, scanListeners nw L = some i →
      quicBindingRegisterListener maximizeOk L nw
        = if L.isEmpty ∧ maximizeOk = false then (L, false)
          else (L.take i ++ nw :: L.drop i, true)) := by
  constructor
  · intro h
    unfold quicBindingRegisterListener
    rw [h]
  · intro i h
    unfold quicBindingRegisterListener
    rw [h]

/-- Reachable listener lists: empty at binding creation, then any
sequence of register and unregister calls. -/
inductive ListenersReach : List Listener → Prop
  | init : ListenersReach []
  | register (L : List Listener) (maximizeOk : Bool) (nw : Listener) :
      ListenersReach L →
      ListenersReach (quicBindingRegisterListener maximizeOk L nw).1
  | unregister (L : List Listener) (l : Listener) :
      ListenersReach L → ListenersReach (L.erase l)

/-- The registry invariant: the list stays sorted and free of pairwise
conflicts. -/
theorem listenersReach_inv (L : List Listener) (h : ListenersReach L) :
    L.Pairwise listenerOrder
  ∧ L.Pairwise (fun a b => ¬ listenerConflict a b) := by
  induction h with
  | init => exact ⟨List.Pairwise.nil, List.Pairwise.nil⟩
  | register L maximizeOk nw _ ih =>
    obtain ⟨hsort, hconf⟩ := ih
    cases hscan : scanListeners nw L with
    | none =>
      rw [(register_result maximizeOk L nw).1 hscan]
      exact ⟨hsort, hconf⟩
    | some i =>
      rw [(register_result maximizeOk L nw).2 i hscan]
      by_cases hroll : L.isEmpty ∧ maximizeOk = false
      · rw [if_pos hroll]
        exact ⟨hsort, hconf⟩
      · rw [if_neg hroll]
        have horder := scanListeners_some_order nw L hsort i hscan
        have hnoconf : ∀ e ∈ L, ¬ listenerConflict nw e := by
          intro e he hc
          have hn : scanListeners nw L = none :=
            (scanListeners_none_iff nw L hsort).mpr ⟨e, he, hc⟩
          rw [hscan] at hn
          cases hn
        constructor
        · exact pairwise_insertAt listenerOrder L nw i hsort
            horder.1 horder.2
        · refine pairwise_insertAt _ L nw i hconf ?_ ?_
          · intro e he hc
            exact hnoconf e ((List.take_sublist i L).subset he)
              (listenerConflict_symm e nw hc)
          · intro e he hc
            exact hnoconf e ((List.drop_sublist i L).subset he) hc
  | unregister L l _ ih =>
    exact ⟨ih.1.sublist (List.erase_sublist l L),
      ih.2.sublist (List.erase_sublist l L)⟩

/-- C9: on any reachable listener list, registering a listener that
agrees with an already-registered one on (family, specificity) and on
address (or whose family is UNSPEC) while overlapping in ALPN fails and
leaves the list unchanged; consequently no two registered listeners of a
binding conflict. -/
theorem listenerRegistry_spec (L : List Listener)
    (h : ListenersReach L) :
    (∀ (nw : Listener) (maximizeOk : Bool),
      (∃ e ∈ L, listenerConflict nw e) →
      quicBindingRegisterListener maximizeOk L nw = (L, false))
  ∧ L.Pairwise (fun a b => ¬ listenerConflict a b) := by
  obtain ⟨hsort, hconf⟩ := listenersReach_inv L h
  refine ⟨?_, hconf⟩
  intro nw maximizeOk hex
  exact (register_result maximizeOk L nw).1
    ((scanListeners_none_iff nw L hsort).mpr hex)

/-- Witness for `listenerRegistry_spec`: the list reached by registering
one IPv4 listener for ALPN h3 on a fresh binding. -/
theorem listenerRegistry_spec_witness :
    (∀ (nw : Listener) (maximizeOk : Bool),
      (∃ e ∈ (quicBindingRegisterListener true []
          ⟨1, 2, 7, false, [[104, 51]]⟩).1, listenerConflict nw e) →
      quicBindingRegisterListener maximizeOk
          (quicBindingRegisterListener true []
            ⟨1, 2, 7, false, [[104, 51]]⟩).1 nw
        = ((quicBindingRegisterListener true []
            ⟨1, 2, 7, false, [[104, 51]]⟩).1, false))
  ∧ (quicBindingRegisterListener true []
      ⟨1, 2, 7, false, [[104, 51]]⟩).1.Pairwise
      (fun a b => ¬ listenerConflict a b) :=
  listenerRegistry_spec _
    (ListenersReach.register [] true ⟨1, 2, 7, false, [[104, 51]]⟩
      ListenersReach.init)
